import Mathlib

/-!
Shallow embedding of the hybrid voxel grid of `src/slam/hybrid_grid.cc`
(the template stack `DynamicGrid<NestedGrid<FlatGrid<V, 3>, 3>>` together
with the domain layer `HybridGridImpl`), and proofs of the specification
claims about it.

Conventions of the embedding:
* Machine `int` values become `Int`.  Every shift/division performed by the
  source acts on values that the source's `DCHECK`s require to be
  non-negative, where Lean's Euclidean `/` and `%` on `Int` agree with C++
  truncating division, so `/` and `%` are used directly.
* The owning pointers (`std::unique_ptr`, null = absent) become `Option`.
* The fatal `CHECK_LE(new_bits, 8)` abort becomes an `Option` result:
  `none` models the unrecoverable process abort.
* `float`/`double` coordinates are modelled as exact rationals `ℚ`; the
  rounding function `std::lround` (round to nearest, ties away from zero)
  is modelled exactly on `ℚ`.
-/

/-- A 3-dimensional integer voxel index, the embedding of `Eigen::Array3i`. -/
structure Idx3 where
  x : Int
  y : Int
  z : Int
deriving DecidableEq

/-- Embedding of `ToFlatIndex`: converts an index with each dimension in
`[0, 2^bits)` to a flat z-major index, `(((z << bits) + y) << bits) + x`. -/
def toFlat (i : Idx3) (bits : Nat) : Int :=
  (i.z * 2 ^ bits + i.y) * 2 ^ bits + i.x

/-- Embedding of `To3DIndex`: converts a flat z-major index to a
3-dimensional index, via `index & mask`, `(index >> bits) & mask`,
`(index >> bits) >> bits` (the source applies it to non-negative flat
indices, where masking and shifting are `%` and `/` by `2^bits`). -/
def to3D (n : Int) (bits : Nat) : Idx3 :=
  ⟨n % 2 ^ bits, (n / 2 ^ bits) % 2 ^ bits, (n / 2 ^ bits) / 2 ^ bits⟩

/-- Membership of an index in the cube `[0, n)^3`. -/
def inCube (i : Idx3) (n : Int) : Prop :=
  0 ≤ i.x ∧ i.x < n ∧ 0 ≤ i.y ∧ i.y < n ∧ 0 ≤ i.z ∧ i.z < n

instance (i : Idx3) (n : Int) : Decidable (inCube i n) := by
  unfold inCube; infer_instance

/-- The flat index range `[0, N)` as integers, the embedding of a scan
over a vector of `N` slots. -/
def rangeZ (N : Nat) : List Int :=
  (List.range N).map Nat.cast

/-- Embedding of `FlatGrid<V, 3>`: a dense `8 x 8 x 8` block of cells.  The
`std::array<V, 512>` is modelled as a function from flat indices; only keys
in `[0, 512)` are ever accessed. -/
structure FlatGrid (V : Type) where
  cells : Int → V

/-- Embedding of the `FlatGrid()` constructor: all values default
constructed. -/
def FlatGrid.empty (V : Type) [Inhabited V] : FlatGrid V :=
  ⟨fun _ => default⟩

/-- Embedding of `FlatGrid::value`. -/
def FlatGrid.value {V : Type} (f : FlatGrid V) (index : Idx3) : V :=
  f.cells (toFlat index 3)

/-- Embedding of writing `v` through the reference returned by
`FlatGrid::mutable_value(index)`. -/
def FlatGrid.set {V : Type} (f : FlatGrid V) (index : Idx3) (v : V) : FlatGrid V :=
  ⟨fun k => if k = toFlat index 3 then v else f.cells k⟩

/-- Embedding of the sequence produced by `FlatGrid::Iterator`: ascending
flat index over all 512 slots, skipping values equal to the default
(`IsDefaultValue`), yielding `(To3DIndex(flat), value)`. -/
def FlatGrid.iter {V : Type} [Inhabited V] [DecidableEq V] (f : FlatGrid V) :
    List (Idx3 × V) :=
  (rangeZ 512).filterMap fun n =>
    if f.cells n = default then none
    else some (to3D n 3, f.cells n)

/-- Embedding of `NestedGrid<FlatGrid<V, 3>, 3>`: an `8 x 8 x 8` array of
optional owned `FlatGrid`s (`std::unique_ptr`, null until first write). -/
structure NestedGrid (V : Type) where
  metaCells : Int → Option (FlatGrid V)

/-- A `NestedGrid` with all meta cells null. -/
def NestedGrid.empty (V : Type) : NestedGrid V :=
  ⟨fun _ => none⟩

/-- Embedding of `NestedGrid::value`: split the index into a meta index
(division by the wrapped grid size 8) and an inner index; null meta cell
reads as the default value. -/
def NestedGrid.value {V : Type} [Inhabited V] (g : NestedGrid V) (index : Idx3) : V :=
  let meta : Idx3 := ⟨index.x / 8, index.y / 8, index.z / 8⟩
  match g.metaCells (toFlat meta 3) with
  | none => default
  | some f => f.value ⟨index.x - meta.x * 8, index.y - meta.y * 8, index.z - meta.z * 8⟩

/-- Embedding of writing `v` through `NestedGrid::mutable_value(index)`:
the meta cell is lazily constructed if null, then the write is delegated. -/
def NestedGrid.set {V : Type} [Inhabited V] (g : NestedGrid V) (index : Idx3) (v : V) :
    NestedGrid V :=
  let meta : Idx3 := ⟨index.x / 8, index.y / 8, index.z / 8⟩
  let inner : Idx3 := ⟨index.x - meta.x * 8, index.y - meta.y * 8, index.z - meta.z * 8⟩
  ⟨fun k =>
    if k = toFlat meta 3 then
      some (((g.metaCells (toFlat meta 3)).getD (FlatGrid.empty V)).set inner v)
    else g.metaCells k⟩

/-- Embedding of the sequence produced by `NestedGrid::Iterator`: ascending
flat meta index; for each non-null meta cell, the wrapped iterator's
entries with index `To3DIndex(meta) * 8 + inner`. -/
def NestedGrid.iter {V : Type} [Inhabited V] [DecidableEq V] (g : NestedGrid V) :
    List (Idx3 × V) :=
  (rangeZ 512).flatMap fun m =>
    match g.metaCells m with
    | none => []
    | some f =>
      f.iter.map fun e =>
        (⟨(to3D m 3).x * 8 + e.1.x, (to3D m 3).y * 8 + e.1.y,
          (to3D m 3).z * 8 + e.1.z⟩, e.2)

/-- Embedding of `DynamicGrid<NestedGrid<FlatGrid<V, 3>, 3>>`: the current
bit width (`bits_`, initially 1) and the meta-cell vector of size
`(2^bits)^3`, modelled as a function on flat meta keys; keys outside
`[0, 2^(3*bits))` are never accessed by any operation. -/
structure DynamicGrid (V : Type) where
  bits : Nat
  metaCells : Int → Option (NestedGrid V)

/-- Embedding of the `DynamicGrid()` constructor: `bits_ = 1` and 8 null
meta cells. -/
def DynamicGrid.init (V : Type) : DynamicGrid V :=
  ⟨1, fun _ => none⟩

/-- Embedding of `DynamicGrid::grid_size()`:
`WrappedGrid::grid_size() << bits_` with the wrapped (nested) grid size
`8 * 8 = 64`. -/
def DynamicGrid.gridSize {V : Type} (g : DynamicGrid V) : Int :=
  64 * 2 ^ g.bits

/-- Half the grid size, `grid_size() >> 1`, used to shift signed indices. -/
def DynamicGrid.halfSize {V : Type} (g : DynamicGrid V) : Int :=
  32 * 2 ^ g.bits

/-- The shifted index `index + (grid_size() >> 1)` used by the dynamic
grid's read and write paths. -/
def DynamicGrid.shift {V : Type} (g : DynamicGrid V) (index : Idx3) : Idx3 :=
  ⟨index.x + g.halfSize, index.y + g.halfSize, index.z + g.halfSize⟩

/-- The source's range test: the cast of the shifted index to `unsigned`
compares `< grid_size` exactly when each component lies in
`[0, grid_size)`; a signed index is addressable at the current size iff
its shifted image lies in the cube. -/
def DynamicGrid.inRange {V : Type} (g : DynamicGrid V) (index : Idx3) : Prop :=
  inCube (g.shift index) g.gridSize

instance {V : Type} (g : DynamicGrid V) (index : Idx3) : Decidable (g.inRange index) := by
  unfold DynamicGrid.inRange; infer_instance

/-- Embedding of `DynamicGrid::value`: shift; out-of-range reads return the
default with no side effect; otherwise split at the wrapped grid size 64
and delegate, a null meta cell reading as default. -/
def DynamicGrid.value {V : Type} [Inhabited V] (g : DynamicGrid V) (index : Idx3) : V :=
  let s := g.shift index
  if g.inRange index then
    let meta : Idx3 := ⟨s.x / 64, s.y / 64, s.z / 64⟩
    match g.metaCells (toFlat meta g.bits) with
    | none => default
    | some w => w.value ⟨s.x - meta.x * 64, s.y - meta.y * 64, s.z - meta.z * 64⟩
  else default

/-- Embedding of the in-range branch of `DynamicGrid::mutable_value`
followed by storing `v` through the returned reference: the meta cell is
lazily constructed if null and the write is delegated. -/
def DynamicGrid.gset {V : Type} [Inhabited V] (g : DynamicGrid V) (index : Idx3) (v : V) :
    DynamicGrid V :=
  let s := g.shift index
  let meta : Idx3 := ⟨s.x / 64, s.y / 64, s.z / 64⟩
  let inner : Idx3 := ⟨s.x - meta.x * 64, s.y - meta.y * 64, s.z - meta.z * 64⟩
  ⟨g.bits,
   fun k =>
     if k = toFlat meta g.bits then
       some (((g.metaCells (toFlat meta g.bits)).getD (NestedGrid.empty V)).set inner v)
     else g.metaCells k⟩

/-- Embedding of `DynamicGrid::Grow` without its `CHECK`: double the
extent; the old meta cell at `(x, y, z)` moves to `(x, y, z) + 2^(bits-1)`
(flat-encoded at the new bit width); all other new meta cells are null. -/
def DynamicGrid.growRaw {V : Type} (g : DynamicGrid V) : DynamicGrid V :=
  ⟨g.bits + 1,
   fun n =>
     let i := to3D n (g.bits + 1)
     let o : Idx3 := ⟨i.x - 2 ^ (g.bits - 1), i.y - 2 ^ (g.bits - 1), i.z - 2 ^ (g.bits - 1)⟩
     if inCube o (2 ^ g.bits) then g.metaCells (toFlat o g.bits) else none⟩

/-- Embedding of the `CHECK_LE(new_bits, 8)` guard around `Grow`: growing
past `bits_ = 8` is the fatal, unrecoverable abort, modelled as `none`. -/
def DynamicGrid.grow {V : Type} (g : DynamicGrid V) : Option (DynamicGrid V) :=
  if g.bits + 1 ≤ 8 then some g.growRaw else none

/-- The grow-and-retry recursion of `DynamicGrid::mutable_value`, followed
by storing `v` through the returned slot.  The recursion is structural on
`fuel`; `mutableWrite` below enters it with `fuel = 8 - bits_`, which the
cap `CHECK_LE(new_bits, 8)` makes an upper bound on the possible number of
growth steps, so the fuel never runs out before the source's own
termination/abort.  The second component counts the growth steps taken. -/
def DynamicGrid.writeGo {V : Type} [Inhabited V] :
    Nat → DynamicGrid V → Idx3 → V → Option (DynamicGrid V) × Nat
  | 0, g, index, v =>
    if g.inRange index then (some (g.gset index v), 0) else (none, 0)
  | fuel + 1, g, index, v =>
    if g.inRange index then (some (g.gset index v), 0)
    else if g.bits + 1 ≤ 8 then
      let r := DynamicGrid.writeGo fuel g.growRaw index v
      (r.1, r.2 + 1)
    else (none, 0)

/-- Embedding of `DynamicGrid::mutable_value(index)` followed by storing
`v`: grow while the shifted index is out of range (fatally aborting, i.e.
`none`, when growth would need `bits_ > 8`), then write into the located
slot.  Also returns the number of growth steps performed. -/
def DynamicGrid.mutableWrite {V : Type} [Inhabited V] (g : DynamicGrid V) (index : Idx3)
    (v : V) : Option (DynamicGrid V) × Nat :=
  DynamicGrid.writeGo (8 - g.bits) g index v

/-- The state after writing `v` at `index` (or `none` on the fatal cap). -/
def DynamicGrid.write {V : Type} [Inhabited V] (g : DynamicGrid V) (index : Idx3)
    (v : V) : Option (DynamicGrid V) :=
  (g.mutableWrite index v).1

/-- A sequence of writes applied in order; `none` as soon as one write hits
the fatal cap. -/
def DynamicGrid.applyWrites {V : Type} [Inhabited V] (g : DynamicGrid V)
    (ws : List (Idx3 × V)) : Option (DynamicGrid V) :=
  ws.foldlM (fun h e => h.write e.1 e.2) g

/-- Embedding of the sequence produced by `DynamicGrid::Iterator`:
ascending flat outer meta index over the `(2^bits)^3` meta cells; for each
non-null meta cell the nested iterator's entries, with the signed cell
index `To3DIndex(outer) * 64 + inner - (1 << (bits_ - 1)) * 64`. -/
def DynamicGrid.iter {V : Type} [Inhabited V] [DecidableEq V] (g : DynamicGrid V) :
    List (Idx3 × V) :=
  (rangeZ (2 ^ (3 * g.bits))).flatMap fun n =>
    match g.metaCells n with
    | none => []
    | some w =>
      w.iter.map fun e =>
        (⟨(to3D n g.bits).x * 64 + e.1.x - 2 ^ (g.bits - 1) * 64,
          (to3D n g.bits).y * 64 + e.1.y - 2 ^ (g.bits - 1) * 64,
          (to3D n g.bits).z * 64 + e.1.z - 2 ^ (g.bits - 1) * 64⟩, e.2)

/-- The composite signed index reached by outer flat meta index `n`, nested
flat meta index `m` and inner flat index `k` during iteration at bit width
`bits`. -/
def compIdx (bits : Nat) (n m k : Int) : Idx3 :=
  ⟨(to3D n bits).x * 64 + ((to3D m 3).x * 8 + (to3D k 3).x) - 2 ^ (bits - 1) * 64,
   (to3D n bits).y * 64 + ((to3D m 3).y * 8 + (to3D k 3).y) - 2 ^ (bits - 1) * 64,
   (to3D n bits).z * 64 + ((to3D m 3).z * 8 + (to3D k 3).z) - 2 ^ (bits - 1) * 64⟩

/-- The full hierarchical enumeration order of the addressable signed
indices at bit width `bits`: outer meta z-major, then nested meta z-major,
then inner z-major. -/
def enumIdx (bits : Nat) : List Idx3 :=
  (rangeZ (2 ^ (3 * bits))).flatMap fun n =>
    (rangeZ 512).flatMap fun m =>
      (rangeZ 512).map fun k => compIdx bits n m k

/-- A 3D point with rational coordinates, the embedding of the PCL point's
`getVector3fMap()` view (exact rationals standing for the machine reals). -/
structure Point where
  px : ℚ
  py : ℚ
  pz : ℚ
deriving DecidableEq

/-- A point cloud, the embedding of `pcl::PointCloud` contents. -/
abbrev Cloud := List Point

/-- The cell value of the domain layer: `PointCloudPtr`, a shared owning
pointer that is null by default.  `IsDefaultValue` compares it to the
default-constructed (null) pointer, so the default is `none` — note that a
non-null pointer to an empty cloud (`some []`) is not the default. -/
abbrev CellV := Option Cloud

/-- Squared Euclidean norm of a point.  The source compares
`p.norm() > 100.0`; on non-negative reals this is equivalent to comparing
the squared norm with `100^2`, which is exact over `ℚ`. -/
def normSq (p : Point) : ℚ :=
  p.px * p.px + p.py * p.py + p.pz * p.pz

/-- Embedding of `std::lround` on exact values: round to the nearest
integer, with halfway cases rounded away from zero. -/
def lroundQ (q : ℚ) : Int :=
  if 0 ≤ q then Rat.floor (q + 1 / 2) else -Rat.floor (-q + 1 / 2)

/-- Embedding of `HybridGridBase::GetCellIndex`: divide each coordinate by
the resolution and round with `RoundToInt` (`std::lround`). -/
def getCellIndex (resolution : ℚ) (p : Point) : Idx3 :=
  ⟨lroundQ (p.px / resolution), lroundQ (p.py / resolution), lroundQ (p.pz / resolution)⟩

/-- Modelled from the spec for comparison only: rounding to the nearest
integer with ties at exactly .5 rounded half-to-even (banker's rounding),
as section 4.3 of the specification describes the metric-to-voxel
rounding. -/
def roundHalfToEven (q : ℚ) : Int :=
  if q - Rat.floor q = 1 / 2 then
    if Rat.floor q % 2 = 0 then Rat.floor q else Rat.floor q + 1
  else lroundQ q

/-- Modelled from the spec for comparison only: `GetCellIndex` as the
specification states it, with per-axis half-to-even rounding. -/
def getCellIndexSpec (resolution : ℚ) (p : Point) : Idx3 :=
  ⟨roundHalfToEven (p.px / resolution), roundHalfToEven (p.py / resolution),
   roundHalfToEven (p.pz / resolution)⟩

/-- Embedding of `HybridGridImpl`: the dynamic grid over point-cloud
handles together with the metric resolution. -/
structure HybridGrid where
  resolution : ℚ
  grid : DynamicGrid CellV

/-- A freshly constructed hybrid grid (`HybridGridImpl(resolution)`). -/
def HybridGrid.mk0 (resolution : ℚ) : HybridGrid :=
  ⟨resolution, DynamicGrid.init CellV⟩

/-- Embedding of inserting a cloud handle into the
`boost::unordered_set<PointCloudPtr>` of touched clouds.  Distinct cells
own distinct clouds, so the set of handle identities is in bijection with
the set of touched cell indices; the model keys the set by cell index and
keeps first-insertion order (the C++ set's traversal order is
unspecified). -/
def insertTouched (l : List Idx3) (i : Idx3) : List Idx3 :=
  if i ∈ l then l else l ++ [i]

/-- One loop step of `GetSurroundedCloud`: skip the point if the norm of
the original, un-transformed point exceeds 100; otherwise transform it by
the pose, read the voxel of the transformed point through the const read
path (which passes the grid state through unchanged), and record the cell
if its cloud handle is non-null. -/
def surroundStep (resolution : ℚ) (pose : Point → Point)
    (st : DynamicGrid CellV × List Idx3) (p : Point) : DynamicGrid CellV × List Idx3 :=
  if 100 * 100 < normSq p then st
  else
    let np := pose p
    let idx := getCellIndex resolution np
    match st.1.value idx with
    | none => st
    | some _ => (st.1, insertTouched st.2 idx)

/-- The loop of `GetSurroundedCloud` over the scan, threading the grid
state and the touched-cell set. -/
def surroundFold (hg : HybridGrid) (scan : List Point) (pose : Point → Point) :
    DynamicGrid CellV × List Idx3 :=
  scan.foldl (surroundStep hg.resolution pose) (hg.grid, [])

/-- The set of touched cells collected by `GetSurroundedCloud`. -/
def surroundTouched (hg : HybridGrid) (scan : List Point) (pose : Point → Point) :
    List Idx3 :=
  (surroundFold hg scan pose).2

/-- Embedding of `HybridGridImpl::GetSurroundedCloud`: run the loop, then
concatenate the touched cells' clouds into a fresh output cloud.  The
result pairs the final grid state with the output cloud. -/
def getSurroundedCloudS (hg : HybridGrid) (scan : List Point) (pose : Point → Point) :
    HybridGrid × Cloud :=
  let st := surroundFold hg scan pose
  (⟨hg.resolution, st.1⟩,
   st.2.foldl (fun acc idx => acc ++ ((st.1.value idx).getD [])) [])

/-- Embedding of the `GetSurroundedCloud` entry point on a possibly null
scan handle: the range-for loop dereferences the handle unconditionally,
so a null handle is undefined behavior (a crash), modelled as `none`. -/
def getSurroundedCloudOpt (hg : HybridGrid) (scan : Option (List Point))
    (pose : Point → Point) : Option (HybridGrid × Cloud) :=
  match scan with
  | none => none
  | some s => some (getSurroundedCloudS hg s pose)

/-- Phase 1 of `InsertScan`: route every point of the scan into its voxel,
lazily allocating the cell's cloud and appending the point; a write past
the hard cap is the fatal abort. -/
def insertPhase1 (resolution : ℚ) (g : DynamicGrid CellV) (scan : List Point) :
    Option (DynamicGrid CellV) :=
  scan.foldlM
    (fun h p =>
      let idx := getCellIndex resolution p
      h.write idx (some ((h.value idx).getD [] ++ [p])))
    g

/-- Phase 2 of `InsertScan`: recompute the set of touched cell clouds
(cells whose handle is non-null) from the same scan. -/
def insertPhase2 (resolution : ℚ) (g : DynamicGrid CellV) (scan : List Point) :
    List Idx3 :=
  scan.foldl
    (fun t p =>
      let idx := getCellIndex resolution p
      match g.value idx with
      | none => t
      | some _ => insertTouched t idx)
    []

/-- Phase 3 of `InsertScan`: downsample every touched cloud in place
through the cell's owning pointer (`filter.filter(*cloud_in_grid)`). -/
def insertPhase3 (g : DynamicGrid CellV) (touched : List Idx3)
    (filt : Cloud → Cloud) : DynamicGrid CellV :=
  touched.foldl (fun h idx => h.gset idx (some (filt ((h.value idx).getD [])))) g

/-- Embedding of `HybridGridImpl::InsertScan`: return immediately on an
empty scan; otherwise run the three phases.  `none` models the fatal abort
of an out-of-domain write. -/
def insertScan (hg : HybridGrid) (scan : List Point) (filt : Cloud → Cloud) :
    Option HybridGrid :=
  if scan.isEmpty then some hg
  else
    match insertPhase1 hg.resolution hg.grid scan with
    | none => none
    | some g1 => some ⟨hg.resolution, insertPhase3 g1 (insertPhase2 hg.resolution g1 scan) filt⟩

/-- Embedding of the `InsertScan` entry point on a possibly null scan
handle: `scan->empty()` dereferences the handle unconditionally, so a null
handle is undefined behavior (a crash), modelled as `none`. -/
def insertScanOpt (hg : HybridGrid) (scan : Option (List Point))
    (filt : Cloud → Cloud) : Option HybridGrid :=
  match scan with
  | none => none
  | some s => insertScan hg s filt

/-- Division step: dividing `t * B + a` by `B` recovers `t` when `a` is a
remainder in `[0, B)`. -/
theorem ediv_step {a t B : Int} (h0 : 0 ≤ a) (h1 : a < B) : (t * B + a) / B = t := by
  have hB : B ≠ 0 := by intro h; omega
  rw [add_comm, Int.add_mul_ediv_right a t hB, Int.ediv_eq_zero_of_lt h0 h1, zero_add]

/-- Remainder step: `t * B + a` modulo `B` recovers `a` when `a` lies in
`[0, B)`. -/
theorem emod_step {a t B : Int} (h0 : 0 ≤ a) (h1 : a < B) : (t * B + a) % B = a := by
  rw [add_comm, Int.add_mul_emod_self, Int.emod_eq_of_lt h0 h1]

/-- Rebuilding the flat index from the 3-dimensional one is the identity
on every integer. -/
theorem toFlat_to3D (n : Int) (bits : Nat) : toFlat (to3D n bits) bits = n := by
  have hB : (0 : Int) < 2 ^ bits := by positivity
  show ((n / 2 ^ bits / 2 ^ bits) * 2 ^ bits + n / 2 ^ bits % 2 ^ bits) * 2 ^ bits
      + n % 2 ^ bits = n
  have h1 : (2 : Int) ^ bits * (n / 2 ^ bits / 2 ^ bits) + n / 2 ^ bits % 2 ^ bits
      = n / 2 ^ bits := Int.ediv_add_emod _ _
  have h2 : (2 : Int) ^ bits * (n / 2 ^ bits) + n % 2 ^ bits = n := Int.ediv_add_emod _ _
  have hq : n / 2 ^ bits / 2 ^ bits * 2 ^ bits + n / 2 ^ bits % 2 ^ bits = n / 2 ^ bits := by
    linarith
  rw [hq]
  linarith

/-- Decomposing the flat index back to 3 dimensions is the identity on the
cube `[0, 2^bits)^3`. -/
theorem to3D_toFlat {i : Idx3} {bits : Nat} (h : inCube i (2 ^ bits)) :
    to3D (toFlat i bits) bits = i := by
  obtain ⟨hx0, hx1, hy0, hy1, hz0, hz1⟩ := h
  have ex : toFlat i bits = (i.z * 2 ^ bits + i.y) * 2 ^ bits + i.x := rfl
  have hq : toFlat i bits / 2 ^ bits = i.z * 2 ^ bits + i.y := by
    rw [ex, ediv_step hx0 hx1]
  show Idx3.mk _ _ _ = i
  have hxc : toFlat i bits % 2 ^ bits = i.x := by rw [ex, emod_step hx0 hx1]
  have hyc : toFlat i bits / 2 ^ bits % 2 ^ bits = i.y := by rw [hq, emod_step hy0 hy1]
  have hzc : toFlat i bits / 2 ^ bits / 2 ^ bits = i.z := by rw [hq, ediv_step hy0 hy1]
  cases i
  simp only [to3D, hxc, hyc, hzc]

/-- A flat index built from a cube index is in `[0, 2^(3 * bits))`. -/
theorem toFlat_bounds {i : Idx3} {bits : Nat} (h : inCube i (2 ^ bits)) :
    0 ≤ toFlat i bits ∧ toFlat i bits < 2 ^ (3 * bits) := by
  obtain ⟨hx0, hx1, hy0, hy1, hz0, hz1⟩ := h
  have hB : (0 : Int) < 2 ^ bits := by positivity
  have hcube : (2 : Int) ^ (3 * bits) = 2 ^ bits * 2 ^ bits * 2 ^ bits := by
    rw [show 3 * bits = bits + bits + bits by ring, pow_add, pow_add]
  constructor
  · show 0 ≤ (i.z * 2 ^ bits + i.y) * 2 ^ bits + i.x
    have : 0 ≤ i.z * 2 ^ bits + i.y := by positivity
    positivity
  · show (i.z * 2 ^ bits + i.y) * 2 ^ bits + i.x < 2 ^ (3 * bits)
    rw [hcube]
    nlinarith

/-- The 3-dimensional decomposition of a flat index in
`[0, 2^(3 * bits))` lands in the cube `[0, 2^bits)^3`. -/
theorem to3D_inCube {n : Int} {bits : Nat} (h0 : 0 ≤ n) (h1 : n < 2 ^ (3 * bits)) :
    inCube (to3D n bits) (2 ^ bits) := by
  have hB : (0 : Int) < 2 ^ bits := by positivity
  have hBne : (2 : Int) ^ bits ≠ 0 := by omega
  have hcube : (2 : Int) ^ (3 * bits) = 2 ^ bits * 2 ^ bits * 2 ^ bits := by
    rw [show 3 * bits = bits + bits + bits by ring, pow_add, pow_add]
  refine ⟨Int.emod_nonneg _ hBne, Int.emod_lt_of_pos _ hB,
    Int.emod_nonneg _ hBne, Int.emod_lt_of_pos _ hB,
    Int.ediv_nonneg (Int.ediv_nonneg h0 (le_of_lt hB)) (le_of_lt hB), ?_⟩
  show n / 2 ^ bits / 2 ^ bits < 2 ^ bits
  rw [Int.ediv_lt_iff_lt_mul hB, Int.ediv_lt_iff_lt_mul hB]
  nlinarith

/-- Flat encoding is injective on the cube. -/
theorem toFlat_inj {i j : Idx3} {bits : Nat} (hi : inCube i (2 ^ bits))
    (hj : inCube j (2 ^ bits)) (h : toFlat i bits = toFlat j bits) : i = j := by
  have := to3D_toFlat hi
  rw [h, to3D_toFlat hj] at this
  exact this.symm

/-- Writing a flat cell and reading it back yields the written value. -/
theorem FlatGrid.set_get_flat {V : Type} (f : FlatGrid V) (i : Idx3) (v : V) :
    (f.set i v).value i = v := by
  simp [FlatGrid.set, FlatGrid.value]

/-- Writing a flat cell leaves every other cell of the block unchanged. -/
theorem FlatGrid.set_other_flat {V : Type} (f : FlatGrid V) {i j : Idx3} (v : V)
    (hi : inCube i 8) (hj : inCube j 8) (h : j ≠ i) :
    (f.set i v).value j = f.value j := by
  have h8 : (8 : Int) = 2 ^ 3 := by norm_num
  have hkey : toFlat j 3 ≠ toFlat i 3 := by
    intro hk
    exact h (toFlat_inj (h8 ▸ hj) (h8 ▸ hi) hk)
  simp [FlatGrid.set, FlatGrid.value, hkey]

/-- Introduction form of cube membership on an explicit index. -/
theorem inCube_mk {a b c n : Int} (h1 : 0 ≤ a) (h2 : a < n) (h3 : 0 ≤ b) (h4 : b < n)
    (h5 : 0 ≤ c) (h6 : c < n) : inCube ⟨a, b, c⟩ n :=
  ⟨h1, h2, h3, h4, h5, h6⟩

/-- Reading the all-null nested grid yields the default value. -/
theorem NestedGrid.empty_value {V : Type} [Inhabited V] (j : Idx3) :
    (NestedGrid.empty V).value j = default := rfl

/-- Unfolding equation of the nested read path. -/
theorem NestedGrid.value_eq_nested {V : Type} [Inhabited V] (g : NestedGrid V) (j : Idx3) :
    g.value j =
      match g.metaCells (toFlat ⟨j.x / 8, j.y / 8, j.z / 8⟩ 3) with
      | none => default
      | some f => f.value ⟨j.x - j.x / 8 * 8, j.y - j.y / 8 * 8, j.z - j.z / 8 * 8⟩ := rfl

/-- Unfolding equation of the nested write path's meta-cell table. -/
theorem NestedGrid.set_metaCells {V : Type} [Inhabited V] (g : NestedGrid V) (i : Idx3)
    (v : V) (k : Int) :
    (g.set i v).metaCells k =
      if k = toFlat ⟨i.x / 8, i.y / 8, i.z / 8⟩ 3 then
        some (((g.metaCells (toFlat ⟨i.x / 8, i.y / 8, i.z / 8⟩ 3)).getD (FlatGrid.empty V)).set
          ⟨i.x - i.x / 8 * 8, i.y - i.y / 8 * 8, i.z - i.z / 8 * 8⟩ v)
      else g.metaCells k := rfl

/-- Writing a nested cell and reading it back yields the written value. -/
theorem NestedGrid.set_get_nested {V : Type} [Inhabited V] (g : NestedGrid V) (i : Idx3)
    (v : V) : (g.set i v).value i = v := by
  rw [NestedGrid.value_eq_nested, NestedGrid.set_metaCells, if_pos rfl]
  exact FlatGrid.set_get_flat _ _ _

/-- Writing a nested cell leaves every other cell in `[0, 64)^3`
unchanged. -/
theorem NestedGrid.set_other_nested {V : Type} [Inhabited V] (g : NestedGrid V) {i j : Idx3}
    (v : V) (hi : inCube i 64) (hj : inCube j 64) (h : j ≠ i) :
    (g.set i v).value j = g.value j := by
  obtain ⟨hix0, hix1, hiy0, hiy1, hiz0, hiz1⟩ := hi
  obtain ⟨hjx0, hjx1, hjy0, hjy1, hjz0, hjz1⟩ := hj
  have h8 : (8 : Int) = 2 ^ 3 := by norm_num
  have hmi : inCube (⟨i.x / 8, i.y / 8, i.z / 8⟩ : Idx3) (2 ^ 3) := by
    exact inCube_mk (by omega) (by omega) (by omega) (by omega) (by omega) (by omega)
  have hmj : inCube (⟨j.x / 8, j.y / 8, j.z / 8⟩ : Idx3) (2 ^ 3) := by
    exact inCube_mk (by omega) (by omega) (by omega) (by omega) (by omega) (by omega)
  rw [NestedGrid.value_eq_nested, NestedGrid.value_eq_nested, NestedGrid.set_metaCells]
  by_cases hkey : toFlat (⟨j.x / 8, j.y / 8, j.z / 8⟩ : Idx3) 3
      = toFlat (⟨i.x / 8, i.y / 8, i.z / 8⟩ : Idx3) 3
  · rw [if_pos hkey, hkey]
    have hmeq : (⟨j.x / 8, j.y / 8, j.z / 8⟩ : Idx3) = ⟨i.x / 8, i.y / 8, i.z / 8⟩ :=
      toFlat_inj hmj hmi hkey
    have e1 : j.x / 8 = i.x / 8 := congrArg Idx3.x hmeq
    have e2 : j.y / 8 = i.y / 8 := congrArg Idx3.y hmeq
    have e3 : j.z / 8 = i.z / 8 := congrArg Idx3.z hmeq
    have hin : (⟨j.x - j.x / 8 * 8, j.y - j.y / 8 * 8, j.z - j.z / 8 * 8⟩ : Idx3)
        ≠ ⟨i.x - i.x / 8 * 8, i.y - i.y / 8 * 8, i.z - i.z / 8 * 8⟩ := by
      intro he
      have e4 : j.x - j.x / 8 * 8 = i.x - i.x / 8 * 8 := congrArg Idx3.x he
      have e5 : j.y - j.y / 8 * 8 = i.y - i.y / 8 * 8 := congrArg Idx3.y he
      have e6 : j.z - j.z / 8 * 8 = i.z - i.z / 8 * 8 := congrArg Idx3.z he
      apply h
      have hx : j.x = i.x := by omega
      have hy : j.y = i.y := by omega
      have hz : j.z = i.z := by omega
      cases i; cases j; simp_all
    have hinner_i : inCube (⟨i.x - i.x / 8 * 8, i.y - i.y / 8 * 8, i.z - i.z / 8 * 8⟩ : Idx3) 8 :=
      inCube_mk (by omega) (by omega) (by omega) (by omega) (by omega) (by omega)
    have hinner_j : inCube (⟨j.x - j.x / 8 * 8, j.y - j.y / 8 * 8, j.z - j.z / 8 * 8⟩ : Idx3) 8 :=
      inCube_mk (by omega) (by omega) (by omega) (by omega) (by omega) (by omega)
    cases hold : g.metaCells (toFlat (⟨i.x / 8, i.y / 8, i.z / 8⟩ : Idx3) 3) with
    | none =>
      show ((Option.getD none (FlatGrid.empty V)).set _ v).value _ = _
      rw [FlatGrid.set_other_flat _ v hinner_i hinner_j hin]
      rfl
    | some f =>
      show ((Option.getD (some f) (FlatGrid.empty V)).set _ v).value _ = _
      rw [FlatGrid.set_other_flat _ v hinner_i hinner_j hin]
      rfl
  · rw [if_neg hkey]

/-- Unfolding equation of the dynamic read path with the shift, meta index
and inner index spelled out. -/
theorem DynamicGrid.value_eq {V : Type} [Inhabited V] (g : DynamicGrid V) (j : Idx3) :
    g.value j =
      if g.inRange j then
        match g.metaCells (toFlat ⟨(j.x + 32 * 2 ^ g.bits) / 64, (j.y + 32 * 2 ^ g.bits) / 64,
            (j.z + 32 * 2 ^ g.bits) / 64⟩ g.bits) with
        | none => default
        | some w =>
          w.value ⟨j.x + 32 * 2 ^ g.bits - (j.x + 32 * 2 ^ g.bits) / 64 * 64,
            j.y + 32 * 2 ^ g.bits - (j.y + 32 * 2 ^ g.bits) / 64 * 64,
            j.z + 32 * 2 ^ g.bits - (j.z + 32 * 2 ^ g.bits) / 64 * 64⟩
      else default := rfl

/-- The in-range write keeps the bit width. -/
theorem DynamicGrid.gset_bits {V : Type} [Inhabited V] (g : DynamicGrid V) (i : Idx3)
    (v : V) : (g.gset i v).bits = g.bits := rfl

/-- Growth increments the bit width. -/
theorem DynamicGrid.growRaw_bits {V : Type} (g : DynamicGrid V) :
    (g.growRaw).bits = g.bits + 1 := rfl

/-- Unfolding equation of the in-range write path's meta-cell table. -/
theorem DynamicGrid.gset_metaCells {V : Type} [Inhabited V] (g : DynamicGrid V) (i : Idx3)
    (v : V) (k : Int) :
    (g.gset i v).metaCells k =
      if k = toFlat ⟨(i.x + 32 * 2 ^ g.bits) / 64, (i.y + 32 * 2 ^ g.bits) / 64,
          (i.z + 32 * 2 ^ g.bits) / 64⟩ g.bits then
        some (((g.metaCells (toFlat ⟨(i.x + 32 * 2 ^ g.bits) / 64, (i.y + 32 * 2 ^ g.bits) / 64,
            (i.z + 32 * 2 ^ g.bits) / 64⟩ g.bits)).getD (NestedGrid.empty V)).set
          ⟨i.x + 32 * 2 ^ g.bits - (i.x + 32 * 2 ^ g.bits) / 64 * 64,
           i.y + 32 * 2 ^ g.bits - (i.y + 32 * 2 ^ g.bits) / 64 * 64,
           i.z + 32 * 2 ^ g.bits - (i.z + 32 * 2 ^ g.bits) / 64 * 64⟩ v)
      else g.metaCells k := rfl

/-- Unfolding equation of the meta-cell table after growth. -/
theorem DynamicGrid.growRaw_metaCells {V : Type} (g : DynamicGrid V) (n : Int) :
    (g.growRaw).metaCells n =
      if inCube ⟨(to3D n (g.bits + 1)).x - 2 ^ (g.bits - 1),
          (to3D n (g.bits + 1)).y - 2 ^ (g.bits - 1),
          (to3D n (g.bits + 1)).z - 2 ^ (g.bits - 1)⟩ (2 ^ g.bits) then
        g.metaCells (toFlat ⟨(to3D n (g.bits + 1)).x - 2 ^ (g.bits - 1),
          (to3D n (g.bits + 1)).y - 2 ^ (g.bits - 1),
          (to3D n (g.bits + 1)).z - 2 ^ (g.bits - 1)⟩ g.bits)
      else none := rfl

/-- Elimination form of the addressability test. -/
theorem DynamicGrid.inRange_elim {V : Type} {g : DynamicGrid V} {j : Idx3}
    (h : g.inRange j) :
    (0 ≤ j.x + 32 * 2 ^ g.bits ∧ j.x + 32 * 2 ^ g.bits < 64 * 2 ^ g.bits)
    ∧ (0 ≤ j.y + 32 * 2 ^ g.bits ∧ j.y + 32 * 2 ^ g.bits < 64 * 2 ^ g.bits)
    ∧ (0 ≤ j.z + 32 * 2 ^ g.bits ∧ j.z + 32 * 2 ^ g.bits < 64 * 2 ^ g.bits) :=
  ⟨⟨h.1, h.2.1⟩, ⟨h.2.2.1, h.2.2.2.1⟩, ⟨h.2.2.2.2.1, h.2.2.2.2.2⟩⟩

/-- Introduction form of the addressability test. -/
theorem DynamicGrid.inRange_intro {V : Type} (g : DynamicGrid V) (j : Idx3)
    (h1 : 0 ≤ j.x + 32 * 2 ^ g.bits) (h2 : j.x + 32 * 2 ^ g.bits < 64 * 2 ^ g.bits)
    (h3 : 0 ≤ j.y + 32 * 2 ^ g.bits) (h4 : j.y + 32 * 2 ^ g.bits < 64 * 2 ^ g.bits)
    (h5 : 0 ≤ j.z + 32 * 2 ^ g.bits) (h6 : j.z + 32 * 2 ^ g.bits < 64 * 2 ^ g.bits) :
    g.inRange j :=
  ⟨h1, h2, h3, h4, h5, h6⟩

/-- Out-of-range reads return the default with no side effect. -/
theorem DynamicGrid.not_inRange_value {V : Type} [Inhabited V] (g : DynamicGrid V)
    (j : Idx3) (h : ¬ g.inRange j) : g.value j = default := by
  rw [DynamicGrid.value_eq, if_neg h]

/-- Every read of the freshly constructed grid returns the default. -/
theorem DynamicGrid.value_init {V : Type} [Inhabited V] (j : Idx3) :
    (DynamicGrid.init V).value j = default := by
  rw [DynamicGrid.value_eq]
  by_cases h : (DynamicGrid.init V).inRange j
  · rw [if_pos h]; rfl
  · rw [if_neg h]

/-- Writing an in-range cell and reading it back yields the written
value. -/
theorem DynamicGrid.gset_value_same {V : Type} [Inhabited V] (g : DynamicGrid V)
    {i : Idx3} (v : V) (hi : g.inRange i) : (g.gset i v).value i = v := by
  rw [DynamicGrid.value_eq, DynamicGrid.gset_bits,
    if_pos (show (g.gset i v).inRange i from hi), DynamicGrid.gset_metaCells, if_pos rfl]
  exact NestedGrid.set_get_nested _ _ _

/-- Writing an in-range cell leaves every other cell's value unchanged. -/
theorem DynamicGrid.gset_value_other {V : Type} [Inhabited V] (g : DynamicGrid V)
    {i j : Idx3} (v : V) (hi : g.inRange i) (hne : j ≠ i) :
    (g.gset i v).value j = g.value j := by
  by_cases hj : g.inRange j
  · obtain ⟨⟨i1, i2⟩, ⟨i3, i4⟩, ⟨i5, i6⟩⟩ := DynamicGrid.inRange_elim hi
    obtain ⟨⟨j1, j2⟩, ⟨j3, j4⟩, ⟨j5, j6⟩⟩ := DynamicGrid.inRange_elim hj
    rw [DynamicGrid.value_eq, DynamicGrid.gset_bits,
      if_pos (show (g.gset i v).inRange j from hj), DynamicGrid.value_eq, if_pos hj,
      DynamicGrid.gset_metaCells]
    have hmi : inCube (⟨(i.x + 32 * 2 ^ g.bits) / 64, (i.y + 32 * 2 ^ g.bits) / 64,
        (i.z + 32 * 2 ^ g.bits) / 64⟩ : Idx3) (2 ^ g.bits) :=
      inCube_mk (by omega) (by omega) (by omega) (by omega) (by omega) (by omega)
    have hmj : inCube (⟨(j.x + 32 * 2 ^ g.bits) / 64, (j.y + 32 * 2 ^ g.bits) / 64,
        (j.z + 32 * 2 ^ g.bits) / 64⟩ : Idx3) (2 ^ g.bits) :=
      inCube_mk (by omega) (by omega) (by omega) (by omega) (by omega) (by omega)
    by_cases hkey : toFlat (⟨(j.x + 32 * 2 ^ g.bits) / 64, (j.y + 32 * 2 ^ g.bits) / 64,
          (j.z + 32 * 2 ^ g.bits) / 64⟩ : Idx3) g.bits
        = toFlat (⟨(i.x + 32 * 2 ^ g.bits) / 64, (i.y + 32 * 2 ^ g.bits) / 64,
          (i.z + 32 * 2 ^ g.bits) / 64⟩ : Idx3) g.bits
    · rw [if_pos hkey, hkey]
      have hmeq := toFlat_inj hmj hmi hkey
      have e1 : (j.x + 32 * 2 ^ g.bits) / 64 = (i.x + 32 * 2 ^ g.bits) / 64 :=
        congrArg Idx3.x hmeq
      have e2 : (j.y + 32 * 2 ^ g.bits) / 64 = (i.y + 32 * 2 ^ g.bits) / 64 :=
        congrArg Idx3.y hmeq
      have e3 : (j.z + 32 * 2 ^ g.bits) / 64 = (i.z + 32 * 2 ^ g.bits) / 64 :=
        congrArg Idx3.z hmeq
      have hin : (⟨j.x + 32 * 2 ^ g.bits - (j.x + 32 * 2 ^ g.bits) / 64 * 64,
          j.y + 32 * 2 ^ g.bits - (j.y + 32 * 2 ^ g.bits) / 64 * 64,
          j.z + 32 * 2 ^ g.bits - (j.z + 32 * 2 ^ g.bits) / 64 * 64⟩ : Idx3)
          ≠ ⟨i.x + 32 * 2 ^ g.bits - (i.x + 32 * 2 ^ g.bits) / 64 * 64,
             i.y + 32 * 2 ^ g.bits - (i.y + 32 * 2 ^ g.bits) / 64 * 64,
             i.z + 32 * 2 ^ g.bits - (i.z + 32 * 2 ^ g.bits) / 64 * 64⟩ := by
        intro he
        have e4 := congrArg Idx3.x he
        have e5 := congrArg Idx3.y he
        have e6 := congrArg Idx3.z he
        simp only at e4 e5 e6
        apply hne
        have hx : j.x = i.x := by omega
        have hy : j.y = i.y := by omega
        have hz : j.z = i.z := by omega
        cases i; cases j; simp_all
      have hci : inCube (⟨i.x + 32 * 2 ^ g.bits - (i.x + 32 * 2 ^ g.bits) / 64 * 64,
          i.y + 32 * 2 ^ g.bits - (i.y + 32 * 2 ^ g.bits) / 64 * 64,
          i.z + 32 * 2 ^ g.bits - (i.z + 32 * 2 ^ g.bits) / 64 * 64⟩ : Idx3) 64 :=
        inCube_mk (by omega) (by omega) (by omega) (by omega) (by omega) (by omega)
      have hcj : inCube (⟨j.x + 32 * 2 ^ g.bits - (j.x + 32 * 2 ^ g.bits) / 64 * 64,
          j.y + 32 * 2 ^ g.bits - (j.y + 32 * 2 ^ g.bits) / 64 * 64,
          j.z + 32 * 2 ^ g.bits - (j.z + 32 * 2 ^ g.bits) / 64 * 64⟩ : Idx3) 64 :=
        inCube_mk (by omega) (by omega) (by omega) (by omega) (by omega) (by omega)
      cases hold : g.metaCells (toFlat (⟨(i.x + 32 * 2 ^ g.bits) / 64,
          (i.y + 32 * 2 ^ g.bits) / 64, (i.z + 32 * 2 ^ g.bits) / 64⟩ : Idx3) g.bits) with
      | none =>
        show ((Option.getD none (NestedGrid.empty V)).set _ v).value _ = _
        rw [NestedGrid.set_other_nested _ v hci hcj hin]
        rfl
      | some w =>
        show ((Option.getD (some w) (NestedGrid.empty V)).set _ v).value _ = _
        rw [NestedGrid.set_other_nested _ v hci hcj hin]
        rfl
    · rw [if_neg hkey]
  · rw [DynamicGrid.not_inRange_value _ _ (show ¬ (g.gset i v).inRange j from hj),
      DynamicGrid.not_inRange_value _ _ hj]

/-- Growth preserves the value stored at every logical (signed) voxel
index: the doubled, re-centered grid reads back exactly what the old grid
read, and newly covered indices read the default. -/
theorem DynamicGrid.growRaw_value {V : Type} [Inhabited V] (g : DynamicGrid V)
    (hb : 1 ≤ g.bits) (j : Idx3) : (g.growRaw).value j = g.value j := by
  have h2b : (2 : Int) ^ g.bits = 2 * 2 ^ (g.bits - 1) := by
    conv_lhs => rw [show g.bits = (g.bits - 1) + 1 from by omega]
    rw [pow_succ]; ring
  have h2b1 : (2 : Int) ^ (g.bits + 1) = 2 * 2 ^ g.bits := by rw [pow_succ]; ring
  by_cases ho : g.inRange j
  · obtain ⟨⟨o1, o2⟩, ⟨o3, o4⟩, ⟨o5, o6⟩⟩ := DynamicGrid.inRange_elim ho
    have hn : (g.growRaw).inRange j := by
      refine DynamicGrid.inRange_intro _ _ ?_ ?_ ?_ ?_ ?_ ?_ <;>
        rw [DynamicGrid.growRaw_bits] <;> omega
    rw [DynamicGrid.value_eq, DynamicGrid.growRaw_bits, if_pos hn,
      DynamicGrid.value_eq, if_pos ho]
    have hmn : inCube (⟨(j.x + 32 * 2 ^ (g.bits + 1)) / 64, (j.y + 32 * 2 ^ (g.bits + 1)) / 64,
        (j.z + 32 * 2 ^ (g.bits + 1)) / 64⟩ : Idx3) (2 ^ (g.bits + 1)) :=
      inCube_mk (by omega) (by omega) (by omega) (by omega) (by omega) (by omega)
    rw [DynamicGrid.growRaw_metaCells, to3D_toFlat hmn]
    have ex : (⟨(j.x + 32 * 2 ^ (g.bits + 1)) / 64, (j.y + 32 * 2 ^ (g.bits + 1)) / 64,
        (j.z + 32 * 2 ^ (g.bits + 1)) / 64⟩ : Idx3).x = (j.x + 32 * 2 ^ (g.bits + 1)) / 64 := rfl
    have ey : (⟨(j.x + 32 * 2 ^ (g.bits + 1)) / 64, (j.y + 32 * 2 ^ (g.bits + 1)) / 64,
        (j.z + 32 * 2 ^ (g.bits + 1)) / 64⟩ : Idx3).y = (j.y + 32 * 2 ^ (g.bits + 1)) / 64 := rfl
    have ez : (⟨(j.x + 32 * 2 ^ (g.bits + 1)) / 64, (j.y + 32 * 2 ^ (g.bits + 1)) / 64,
        (j.z + 32 * 2 ^ (g.bits + 1)) / 64⟩ : Idx3).z = (j.z + 32 * 2 ^ (g.bits + 1)) / 64 := rfl
    rw [ex, ey, ez]
    have dx : (j.x + 32 * 2 ^ (g.bits + 1)) / 64 - 2 ^ (g.bits - 1)
        = (j.x + 32 * 2 ^ g.bits) / 64 := by omega
    have dy : (j.y + 32 * 2 ^ (g.bits + 1)) / 64 - 2 ^ (g.bits - 1)
        = (j.y + 32 * 2 ^ g.bits) / 64 := by omega
    have dz : (j.z + 32 * 2 ^ (g.bits + 1)) / 64 - 2 ^ (g.bits - 1)
        = (j.z + 32 * 2 ^ g.bits) / 64 := by omega
    rw [dx, dy, dz]
    have hmo : inCube (⟨(j.x + 32 * 2 ^ g.bits) / 64, (j.y + 32 * 2 ^ g.bits) / 64,
        (j.z + 32 * 2 ^ g.bits) / 64⟩ : Idx3) (2 ^ g.bits) :=
      inCube_mk (by omega) (by omega) (by omega) (by omega) (by omega) (by omega)
    rw [if_pos hmo]
    have ix : j.x + 32 * 2 ^ (g.bits + 1) - (j.x + 32 * 2 ^ (g.bits + 1)) / 64 * 64
        = j.x + 32 * 2 ^ g.bits - (j.x + 32 * 2 ^ g.bits) / 64 * 64 := by omega
    have iy : j.y + 32 * 2 ^ (g.bits + 1) - (j.y + 32 * 2 ^ (g.bits + 1)) / 64 * 64
        = j.y + 32 * 2 ^ g.bits - (j.y + 32 * 2 ^ g.bits) / 64 * 64 := by omega
    have iz : j.z + 32 * 2 ^ (g.bits + 1) - (j.z + 32 * 2 ^ (g.bits + 1)) / 64 * 64
        = j.z + 32 * 2 ^ g.bits - (j.z + 32 * 2 ^ g.bits) / 64 * 64 := by omega
    rw [ix, iy, iz]
  · rw [DynamicGrid.not_inRange_value _ _ ho, DynamicGrid.value_eq,
      DynamicGrid.growRaw_bits]
    by_cases hn : (g.growRaw).inRange j
    · rw [if_pos hn]
      have hnE := DynamicGrid.inRange_elim hn
      rw [DynamicGrid.growRaw_bits] at hnE
      obtain ⟨⟨n1, n2⟩, ⟨n3, n4⟩, ⟨n5, n6⟩⟩ := hnE
      have hmn : inCube (⟨(j.x + 32 * 2 ^ (g.bits + 1)) / 64, (j.y + 32 * 2 ^ (g.bits + 1)) / 64,
          (j.z + 32 * 2 ^ (g.bits + 1)) / 64⟩ : Idx3) (2 ^ (g.bits + 1)) :=
        inCube_mk (by omega) (by omega) (by omega) (by omega) (by omega) (by omega)
      rw [DynamicGrid.growRaw_metaCells, to3D_toFlat hmn]
      have hnotcube : ¬ inCube (⟨(⟨(j.x + 32 * 2 ^ (g.bits + 1)) / 64,
          (j.y + 32 * 2 ^ (g.bits + 1)) / 64, (j.z + 32 * 2 ^ (g.bits + 1)) / 64⟩ : Idx3).x
            - 2 ^ (g.bits - 1),
          (⟨(j.x + 32 * 2 ^ (g.bits + 1)) / 64, (j.y + 32 * 2 ^ (g.bits + 1)) / 64,
            (j.z + 32 * 2 ^ (g.bits + 1)) / 64⟩ : Idx3).y - 2 ^ (g.bits - 1),
          (⟨(j.x + 32 * 2 ^ (g.bits + 1)) / 64, (j.y + 32 * 2 ^ (g.bits + 1)) / 64,
            (j.z + 32 * 2 ^ (g.bits + 1)) / 64⟩ : Idx3).z - 2 ^ (g.bits - 1)⟩ : Idx3)
          (2 ^ g.bits) := by
        intro hc
        obtain ⟨c1, c2, c3, c4, c5, c6⟩ := hc
        apply ho
        refine DynamicGrid.inRange_intro _ _ ?_ ?_ ?_ ?_ ?_ ?_ <;>
          simp only at c1 c2 c3 c4 c5 c6 <;> omega
      rw [if_neg hnotcube]
    · rw [if_neg hn]

/-- Addressability at an arbitrary bit width `b` (what `inRange` tests when
`bits_ = b`). -/
def inRangeBits (b : Nat) (i : Idx3) : Prop :=
  inCube ⟨i.x + 32 * 2 ^ b, i.y + 32 * 2 ^ b, i.z + 32 * 2 ^ b⟩ (64 * 2 ^ b)

instance (b : Nat) (i : Idx3) : Decidable (inRangeBits b i) := by
  unfold inRangeBits; infer_instance

/-- The hard addressability cap: the range at the maximal bit width 8,
which is `[-8192, 8191]` per axis. -/
def capRange (i : Idx3) : Prop := inRangeBits 8 i

instance (i : Idx3) : Decidable (capRange i) := by
  unfold capRange; infer_instance

/-- The current range test coincides with `inRangeBits` at the current bit
width. -/
theorem DynamicGrid.inRange_iff_bits {V : Type} (g : DynamicGrid V) (i : Idx3) :
    g.inRange i ↔ inRangeBits g.bits i := Iff.rfl

/-- Doubling the extent enlarges the addressable set. -/
theorem inRangeBits_mono {b b' : Nat} (h : b ≤ b') {i : Idx3} (hi : inRangeBits b i) :
    inRangeBits b' i := by
  obtain ⟨h1, h2, h3, h4, h5, h6⟩ := hi
  have hp : (2 : Int) ^ b ≤ 2 ^ b' := pow_le_pow_right₀ one_le_two h
  simp only at h1 h2 h3 h4 h5 h6
  exact inCube_mk (by omega) (by omega) (by omega) (by omega) (by omega) (by omega)

/-- Each growth step strictly enlarges the addressable set. -/
theorem inRangeBits_strict (b : Nat) :
    (∀ j, inRangeBits b j → inRangeBits (b + 1) j)
    ∧ inRangeBits (b + 1) ⟨32 * 2 ^ b, 0, 0⟩ ∧ ¬ inRangeBits b ⟨32 * 2 ^ b, 0, 0⟩ := by
  have hp : (0 : Int) < 2 ^ b := by positivity
  have hp1 : (2 : Int) ^ (b + 1) = 2 * 2 ^ b := by rw [pow_succ]; ring
  refine ⟨fun j => inRangeBits_mono (Nat.le_succ b), ?_, ?_⟩
  · show inCube ⟨32 * 2 ^ b + 32 * 2 ^ (b + 1), 0 + 32 * 2 ^ (b + 1), 0 + 32 * 2 ^ (b + 1)⟩
      (64 * 2 ^ (b + 1))
    exact inCube_mk (by omega) (by omega) (by omega) (by omega) (by omega) (by omega)
  · intro hc
    obtain ⟨h1, h2, h3, h4, h5, h6⟩ := hc
    have h2c : (32 * 2 ^ b + 32 * 2 ^ b : Int) < 64 * 2 ^ b := h2
    omega

/-- The growth counter of the grow-and-retry loop never exceeds the fuel. -/
theorem DynamicGrid.writeGo_count_le {V : Type} [Inhabited V] (fuel : Nat)
    (g : DynamicGrid V) (i : Idx3) (v : V) :
    (DynamicGrid.writeGo fuel g i v).2 ≤ fuel := by
  induction fuel generalizing g with
  | zero =>
    by_cases h : g.inRange i
    · simp [DynamicGrid.writeGo, h]
    · simp [DynamicGrid.writeGo, h]
  | succ n ih =>
    by_cases h : g.inRange i
    · simp [DynamicGrid.writeGo, h]
    · by_cases h8 : g.bits + 1 ≤ 8
      · simp only [DynamicGrid.writeGo, if_neg h, if_pos h8]
        have := ih g.growRaw
        omega
      · simp [DynamicGrid.writeGo, h, h8]

/-- Specification of a successful grow-and-retry write: the final bit
width counts the growths, the target is in range in the final state and
reads back the written value, and every other index keeps its value. -/
theorem DynamicGrid.writeGo_spec {V : Type} [Inhabited V] (fuel : Nat) :
    ∀ (g : DynamicGrid V) (i : Idx3) (v : V) {g' : DynamicGrid V} {c : Nat},
      DynamicGrid.writeGo fuel g i v = (some g', c) →
      g'.bits = g.bits + c ∧ g'.inRange i ∧ g'.value i = v
      ∧ (1 ≤ g.bits → ∀ j, j ≠ i → g'.value j = g.value j)
      ∧ (g.bits ≤ 8 → g'.bits ≤ 8) := by
  induction fuel with
  | zero =>
    intro g i v g' c h
    by_cases hr : g.inRange i
    · simp only [DynamicGrid.writeGo, if_pos hr, Prod.mk.injEq, Option.some.injEq] at h
      obtain ⟨h1, h2⟩ := h
      subst h1
      refine ⟨by rw [DynamicGrid.gset_bits]; omega,
        show (g.gset i v).inRange i from hr,
        DynamicGrid.gset_value_same g v hr,
        fun _ j hj => DynamicGrid.gset_value_other g v hr hj,
        fun hb => by rw [DynamicGrid.gset_bits]; exact hb⟩
    · simp [DynamicGrid.writeGo, hr] at h
  | succ n ih =>
    intro g i v g' c h
    by_cases hr : g.inRange i
    · simp only [DynamicGrid.writeGo, if_pos hr, Prod.mk.injEq, Option.some.injEq] at h
      obtain ⟨h1, h2⟩ := h
      subst h1
      refine ⟨by rw [DynamicGrid.gset_bits]; omega,
        show (g.gset i v).inRange i from hr,
        DynamicGrid.gset_value_same g v hr,
        fun _ j hj => DynamicGrid.gset_value_other g v hr hj,
        fun hb => by rw [DynamicGrid.gset_bits]; exact hb⟩
    · by_cases h8 : g.bits + 1 ≤ 8
      · simp only [DynamicGrid.writeGo, if_neg hr, if_pos h8] at h
        cases hgo : DynamicGrid.writeGo n g.growRaw i v with
        | mk r cnt =>
          rw [hgo] at h
          have h1 : r = some g' := congrArg Prod.fst h
          have h2 : cnt + 1 = c := congrArg Prod.snd h
          subst h1
          obtain ⟨b1, b2, b3, b4, b5⟩ := ih g.growRaw i v hgo
          rw [DynamicGrid.growRaw_bits] at b1 b5
          refine ⟨by omega, b2, b3, ?_, fun hb => b5 (by omega)⟩
          intro hb j hj
          rw [b4 (by rw [DynamicGrid.growRaw_bits]; omega) j hj,
            DynamicGrid.growRaw_value g hb j]
      · simp [DynamicGrid.writeGo, hr, h8] at h

/-- Success of the grow-and-retry loop is exactly addressability within
the hard cap. -/
theorem DynamicGrid.writeGo_isSome_iff {V : Type} [Inhabited V] (fuel : Nat) :
    ∀ (g : DynamicGrid V) (i : Idx3) (v : V), g.bits ≤ 8 → 8 ≤ g.bits + fuel →
      ((DynamicGrid.writeGo fuel g i v).1.isSome ↔ capRange i) := by
  induction fuel with
  | zero =>
    intro g i v hb8 hf
    have hbe : g.bits = 8 := by omega
    by_cases hr : g.inRange i
    · simp only [DynamicGrid.writeGo, if_pos hr, Option.isSome_some, true_iff]
      unfold capRange
      rw [← hbe]
      exact (DynamicGrid.inRange_iff_bits g i).mp hr
    · simp only [DynamicGrid.writeGo, if_neg hr, Option.isSome_none,
        Bool.false_eq_true, false_iff]
      intro hc
      unfold capRange at hc
      rw [← hbe] at hc
      exact hr ((DynamicGrid.inRange_iff_bits g i).mpr hc)
  | succ n ih =>
    intro g i v hb8 hf
    by_cases hr : g.inRange i
    · simp only [DynamicGrid.writeGo, if_pos hr, Option.isSome_some, true_iff]
      exact inRangeBits_mono hb8 ((DynamicGrid.inRange_iff_bits g i).mp hr)
    · by_cases h8 : g.bits + 1 ≤ 8
      · simp only [DynamicGrid.writeGo, if_neg hr, if_pos h8]
        exact ih g.growRaw i v (by rw [DynamicGrid.growRaw_bits]; omega)
          (by rw [DynamicGrid.growRaw_bits]; omega)
      · simp only [DynamicGrid.writeGo, if_neg hr, if_neg h8, Option.isSome_none,
          Bool.false_eq_true, false_iff]
        intro hc
        have hbe : g.bits = 8 := by omega
        unfold capRange at hc
        rw [← hbe] at hc
        exact hr ((DynamicGrid.inRange_iff_bits g i).mpr hc)

/-- Specification of a successful `mutable_value` write. -/
theorem DynamicGrid.write_spec {V : Type} [Inhabited V] {g g' : DynamicGrid V} {i : Idx3}
    {v : V} (h : g.write i v = some g') :
    g'.inRange i ∧ g'.value i = v
    ∧ (1 ≤ g.bits → ∀ j, j ≠ i → g'.value j = g.value j)
    ∧ (1 ≤ g.bits → 1 ≤ g'.bits) ∧ (g.bits ≤ 8 → g'.bits ≤ 8) := by
  unfold DynamicGrid.write DynamicGrid.mutableWrite at h
  cases hgo : DynamicGrid.writeGo (8 - g.bits) g i v with
  | mk r cnt =>
    rw [hgo] at h
    have h' : r = some g' := h
    subst h'
    obtain ⟨b1, b2, b3, b4, b5⟩ := DynamicGrid.writeGo_spec _ g i v hgo
    exact ⟨b2, b3, b4, fun hb => by omega, b5⟩

/-- Success of `mutable_value` is exactly addressability within the hard
cap `[-8192, 8191]` per axis, for any state below the cap. -/
theorem DynamicGrid.write_isSome_iff {V : Type} [Inhabited V] (g : DynamicGrid V)
    (i : Idx3) (v : V) (hb8 : g.bits ≤ 8) :
    (g.write i v).isSome ↔ capRange i := by
  unfold DynamicGrid.write DynamicGrid.mutableWrite
  exact DynamicGrid.writeGo_isSome_iff (8 - g.bits) g i v hb8 (by omega)

/-- A sequence of successful writes avoiding an index leaves that index's
value unchanged. -/
theorem DynamicGrid.applyWrites_value_other {V : Type} [Inhabited V]
    (ws : List (Idx3 × V)) :
    ∀ (g g' : DynamicGrid V) (idx : Idx3), 1 ≤ g.bits → (∀ e ∈ ws, e.1 ≠ idx) →
      g.applyWrites ws = some g' → g'.value idx = g.value idx := by
  induction ws with
  | nil =>
    intro g g' idx _ _ h
    simp only [DynamicGrid.applyWrites, List.foldlM_nil] at h
    cases h
    rfl
  | cons e ws ih =>
    intro g g' idx hb hne h
    simp only [DynamicGrid.applyWrites, List.foldlM_cons] at h
    cases hw : g.write e.1 e.2 with
    | none => rw [hw] at h; simp at h
    | some g1 =>
      rw [hw] at h
      have h' : DynamicGrid.applyWrites g1 ws = some g' := h
      obtain ⟨w1, w2, w3, w4, w5⟩ := DynamicGrid.write_spec hw
      have hstep := w3 hb idx (fun hc => hne e (List.mem_cons_self e ws) (hc ▸ rfl))
      rw [← hstep]
      exact ih g1 g' idx (w4 hb) (fun f hf => hne f (List.mem_cons_of_mem e hf)) h'

/-- Successful write sequences keep the bit width within `[1, 8]`. -/
theorem DynamicGrid.applyWrites_bits {V : Type} [Inhabited V] (ws : List (Idx3 × V)) :
    ∀ (g g' : DynamicGrid V), 1 ≤ g.bits → g.bits ≤ 8 → g.applyWrites ws = some g' →
      1 ≤ g'.bits ∧ g'.bits ≤ 8 := by
  induction ws with
  | nil =>
    intro g g' h1 h8 h
    simp only [DynamicGrid.applyWrites, List.foldlM_nil] at h
    cases h
    exact ⟨h1, h8⟩
  | cons e ws ih =>
    intro g g' h1 h8 h
    simp only [DynamicGrid.applyWrites, List.foldlM_cons] at h
    cases hw : g.write e.1 e.2 with
    | none => rw [hw] at h; simp at h
    | some g1 =>
      rw [hw] at h
      have h' : DynamicGrid.applyWrites g1 ws = some g' := h
      obtain ⟨_, _, _, w4, w5⟩ := DynamicGrid.write_spec hw
      exact ih g1 g' (w4 h1) (w5 h8) h'

/-- C1: writing `v ≠ default` at an addressable index makes a subsequent
read return `v`, and this persists through any later successful writes to
other indices — growth included — because growth preserves the value at
every logical (signed) coordinate. -/
theorem c1_write_read_roundtrip {V : Type} [Inhabited V] (g g₁ : DynamicGrid V)
    (idx : Idx3) (v : V) (hb : 1 ≤ g.bits) (hv : v ≠ default)
    (hw : g.write idx v = some g₁) :
    g₁.value idx = v
    ∧ (∀ (ws : List (Idx3 × V)) (g₂ : DynamicGrid V), (∀ e ∈ ws, e.1 ≠ idx) →
        g₁.applyWrites ws = some g₂ → g₂.value idx = v)
    ∧ (∀ (h : DynamicGrid V) (j : Idx3), 1 ≤ h.bits → h.growRaw.value j = h.value j) := by
  obtain ⟨w1, w2, w3, w4, w5⟩ := DynamicGrid.write_spec hw
  refine ⟨w2, ?_, fun h j hb' => DynamicGrid.growRaw_value h hb' j⟩
  intro ws g₂ hne happ
  rw [DynamicGrid.applyWrites_value_other ws g₁ g₂ idx (w4 hb) hne happ, w2]

/-- Witness for C1 at a concrete input: the fresh grid, index `(0,0,0)`,
value `1`. -/
theorem c1_write_read_roundtrip_witness :
    (1 ≤ (DynamicGrid.init Nat).bits ∧ (1 : Nat) ≠ default
      ∧ (DynamicGrid.init Nat).write ⟨0, 0, 0⟩ 1
          = some ((DynamicGrid.init Nat).gset ⟨0, 0, 0⟩ 1))
    ∧ (((DynamicGrid.init Nat).gset ⟨0, 0, 0⟩ 1).value ⟨0, 0, 0⟩ = 1
      ∧ (∀ (ws : List (Idx3 × Nat)) (g₂ : DynamicGrid Nat),
          (∀ e ∈ ws, e.1 ≠ (⟨0, 0, 0⟩ : Idx3)) →
          ((DynamicGrid.init Nat).gset ⟨0, 0, 0⟩ 1).applyWrites ws = some g₂ →
          g₂.value ⟨0, 0, 0⟩ = 1)
      ∧ (∀ (h : DynamicGrid Nat) (j : Idx3), 1 ≤ h.bits →
          h.growRaw.value j = h.value j)) :=
  ⟨⟨by decide, by decide, rfl⟩,
   c1_write_read_roundtrip (DynamicGrid.init Nat) _ ⟨0, 0, 0⟩ 1 (by decide) (by decide) rfl⟩

/-- C2 counterexample: the claim fails as stated.  A write at
`(8192, 8192, 8192)` (the `k = 8192` all-positive sign combination) hits
the fatal cap instead of succeeding, and on the reachable state obtained
by writing `1` at `(0, 0, 0)` (the `k = 0` case) the read returns `1`,
not the default. -/
theorem c2_counterexample :
    (DynamicGrid.init Nat).write ⟨8192, 8192, 8192⟩ 1 = none
    ∧ ((DynamicGrid.init Nat).write ⟨0, 0, 0⟩ 1).map (fun g => g.value ⟨0, 0, 0⟩)
        = some 1
    ∧ (1 : Nat) ≠ default :=
  ⟨rfl, rfl, by decide⟩

/-- C2 as amended: reads of a never-written index return the default on
any reachable state; writes succeed and are readable for every sign
combination when `k ≤ 8191`; at `k = 8192` the all-negative corner
`(-8192, -8192, -8192)` still succeeds, while any combination with a
`+8192` component hits the fatal cap. -/
theorem c2_symmetric_addressability {V : Type} [Inhabited V] (k : Int) (idx : Idx3)
    (hk : 0 ≤ k) (hx : idx.x = k ∨ idx.x = -k) (hy : idx.y = k ∨ idx.y = -k)
    (hz : idx.z = k ∨ idx.z = -k) :
    (∀ (ws : List (Idx3 × V)) (g' : DynamicGrid V), (∀ e ∈ ws, e.1 ≠ idx) →
        (DynamicGrid.init V).applyWrites ws = some g' → g'.value idx = default)
    ∧ (∀ (g : DynamicGrid V) (v : V), 1 ≤ g.bits → g.bits ≤ 8 → k ≤ 8191 →
        ∃ g₁, g.write idx v = some g₁ ∧ g₁.value idx = v)
    ∧ (∀ (g : DynamicGrid V) (v : V), g.bits ≤ 8 →
        ∃ g₁, g.write ⟨-8192, -8192, -8192⟩ v = some g₁
          ∧ g₁.value ⟨-8192, -8192, -8192⟩ = v)
    ∧ (∀ (g : DynamicGrid V) (v : V), g.bits ≤ 8 →
        (idx.x = 8192 ∨ idx.y = 8192 ∨ idx.z = 8192) → g.write idx v = none) := by
  refine ⟨?_, ?_, ?_, ?_⟩
  · intro ws g' hne happ
    rw [DynamicGrid.applyWrites_value_other ws _ g' idx
      (show 1 ≤ (DynamicGrid.init V).bits from le_refl 1) hne happ]
    exact DynamicGrid.value_init idx
  · intro g v hb1 hb8 hk1
    have hcap : capRange idx :=
      inCube_mk (by rcases hx with h | h <;> omega) (by rcases hx with h | h <;> omega)
        (by rcases hy with h | h <;> omega) (by rcases hy with h | h <;> omega)
        (by rcases hz with h | h <;> omega) (by rcases hz with h | h <;> omega)
    have hs := (DynamicGrid.write_isSome_iff g idx v hb8).mpr hcap
    cases hw : g.write idx v with
    | none => rw [hw] at hs; simp at hs
    | some g₁ =>
      obtain ⟨_, w2, _, _, _⟩ := DynamicGrid.write_spec hw
      exact ⟨g₁, rfl, w2⟩
  · intro g v hb8
    have hcap : capRange ⟨-8192, -8192, -8192⟩ := by decide
    have hs := (DynamicGrid.write_isSome_iff g _ v hb8).mpr hcap
    cases hw : g.write ⟨-8192, -8192, -8192⟩ v with
    | none => rw [hw] at hs; simp at hs
    | some g₁ =>
      obtain ⟨_, w2, _, _, _⟩ := DynamicGrid.write_spec hw
      exact ⟨g₁, rfl, w2⟩
  · intro g v hb8 hpos
    have hcap : ¬ capRange idx := by
      intro hc
      obtain ⟨c1, c2, c3, c4, c5, c6⟩ := hc
      simp only at c1 c2 c3 c4 c5 c6
      rcases hpos with h | h | h <;> omega
    cases hw : g.write idx v with
    | none => rfl
    | some g₁ =>
      have hs := (DynamicGrid.write_isSome_iff g idx v hb8).mp (by rw [hw]; rfl)
      exact absurd hs hcap

/-- Witness for C2's amended claim at `k = 0`, `idx = (0, 0, 0)`. -/
theorem c2_symmetric_addressability_witness :
    ((0 : Int) ≤ 0 ∧ ((⟨0, 0, 0⟩ : Idx3).x = 0 ∨ (⟨0, 0, 0⟩ : Idx3).x = -0)
      ∧ ((⟨0, 0, 0⟩ : Idx3).y = 0 ∨ (⟨0, 0, 0⟩ : Idx3).y = -0)
      ∧ ((⟨0, 0, 0⟩ : Idx3).z = 0 ∨ (⟨0, 0, 0⟩ : Idx3).z = -0))
    ∧ ((∀ (ws : List (Idx3 × Nat)) (g' : DynamicGrid Nat),
          (∀ e ∈ ws, e.1 ≠ (⟨0, 0, 0⟩ : Idx3)) →
          (DynamicGrid.init Nat).applyWrites ws = some g' →
          g'.value ⟨0, 0, 0⟩ = default)
      ∧ (∀ (g : DynamicGrid Nat) (v : Nat), 1 ≤ g.bits → g.bits ≤ 8 → (0 : Int) ≤ 8191 →
          ∃ g₁, g.write ⟨0, 0, 0⟩ v = some g₁ ∧ g₁.value ⟨0, 0, 0⟩ = v)
      ∧ (∀ (g : DynamicGrid Nat) (v : Nat), g.bits ≤ 8 →
          ∃ g₁, g.write ⟨-8192, -8192, -8192⟩ v = some g₁
            ∧ g₁.value ⟨-8192, -8192, -8192⟩ = v)
      ∧ (∀ (g : DynamicGrid Nat) (v : Nat), g.bits ≤ 8 →
          ((⟨0, 0, 0⟩ : Idx3).x = 8192 ∨ (⟨0, 0, 0⟩ : Idx3).y = 8192
            ∨ (⟨0, 0, 0⟩ : Idx3).z = 8192) →
          g.write ⟨0, 0, 0⟩ v = none)) :=
  ⟨⟨by decide, by decide, by decide, by decide⟩,
   c2_symmetric_addressability 0 ⟨0, 0, 0⟩ (by decide) (by decide) (by decide) (by decide)⟩

/-- C3: a write at `(8191, 0, 0)` succeeds from any reachable state, a
write at `(8192, 0, 0)` — like any index outside the hard cap — hits the
fatal, unrecoverable error, and reads never trigger it: out-of-range
reads just return the default. -/
theorem c3_domain_cap {V : Type} [Inhabited V] (g : DynamicGrid V) (v : V)
    (hb1 : 1 ≤ g.bits) (hb8 : g.bits ≤ 8) :
    (g.write ⟨8191, 0, 0⟩ v).isSome
    ∧ g.write ⟨8192, 0, 0⟩ v = none
    ∧ (∀ idx : Idx3, ¬ capRange idx → g.write idx v = none)
    ∧ (∀ idx : Idx3, ¬ g.inRange idx → g.value idx = default) := by
  have hnone : ∀ idx : Idx3, ¬ capRange idx → g.write idx v = none := by
    intro idx hcap
    cases hw : g.write idx v with
    | none => rfl
    | some g₁ =>
      have hs := (DynamicGrid.write_isSome_iff g idx v hb8).mp (by rw [hw]; rfl)
      exact absurd hs hcap
  refine ⟨(DynamicGrid.write_isSome_iff g _ v hb8).mpr (by decide),
    hnone ⟨8192, 0, 0⟩ (by decide), hnone,
    fun idx h => DynamicGrid.not_inRange_value g idx h⟩

/-- Witness for C3 on the fresh grid. -/
theorem c3_domain_cap_witness :
    (1 ≤ (DynamicGrid.init Nat).bits ∧ (DynamicGrid.init Nat).bits ≤ 8)
    ∧ (((DynamicGrid.init Nat).write ⟨8191, 0, 0⟩ 1).isSome
      ∧ (DynamicGrid.init Nat).write ⟨8192, 0, 0⟩ 1 = none
      ∧ (∀ idx : Idx3, ¬ capRange idx → (DynamicGrid.init Nat).write idx 1 = none)
      ∧ (∀ idx : Idx3, ¬ (DynamicGrid.init Nat).inRange idx →
          (DynamicGrid.init Nat).value idx = default)) :=
  ⟨⟨by decide, by decide⟩, c3_domain_cap (DynamicGrid.init Nat) 1 (by decide) (by decide)⟩

/-- C9: the grow-and-retry recursion of `mutable_value` terminates: it
performs at most `8 - bits` growth steps, a successful return is a slot
for the requested index in an in-range state, failure happens only past
the hard cap, and each growth strictly enlarges the addressable set. -/
theorem c9_mutable_value_terminates {V : Type} [Inhabited V] (g : DynamicGrid V)
    (idx : Idx3) (v : V) (hb1 : 1 ≤ g.bits) (hb8 : g.bits ≤ 8) :
    (g.mutableWrite idx v).2 ≤ 8 - g.bits
    ∧ (∀ g₁, (g.mutableWrite idx v).1 = some g₁ →
        g₁.inRange idx ∧ g₁.value idx = v ∧ g₁.bits ≤ 8)
    ∧ ((g.mutableWrite idx v).1 = none → ¬ capRange idx)
    ∧ (∀ b : Nat, (∀ j, inRangeBits b j → inRangeBits (b + 1) j)
        ∧ (∃ j, inRangeBits (b + 1) j ∧ ¬ inRangeBits b j)) := by
  refine ⟨DynamicGrid.writeGo_count_le _ g idx v, ?_, ?_, ?_⟩
  · intro g₁ h1
    obtain ⟨b1, b2, b3, b4, b5⟩ := DynamicGrid.write_spec (g := g) (i := idx) (v := v) h1
    exact ⟨b1, b2, b5 hb8⟩
  · intro hn hc
    have hs := (DynamicGrid.write_isSome_iff g idx v hb8).mpr hc
    have hw : g.write idx v = none := hn
    rw [hw] at hs
    simp at hs
  · intro b
    obtain ⟨hmono, hnew, hnot⟩ := inRangeBits_strict b
    exact ⟨hmono, ⟨32 * 2 ^ b, 0, 0⟩, hnew, hnot⟩

/-- Witness for C9 on the fresh grid. -/
theorem c9_mutable_value_terminates_witness :
    (1 ≤ (DynamicGrid.init Nat).bits ∧ (DynamicGrid.init Nat).bits ≤ 8)
    ∧ (((DynamicGrid.init Nat).mutableWrite ⟨0, 0, 0⟩ 1).2
        ≤ 8 - (DynamicGrid.init Nat).bits
      ∧ (∀ g₁, ((DynamicGrid.init Nat).mutableWrite ⟨0, 0, 0⟩ 1).1 = some g₁ →
          g₁.inRange ⟨0, 0, 0⟩ ∧ g₁.value ⟨0, 0, 0⟩ = 1 ∧ g₁.bits ≤ 8)
      ∧ (((DynamicGrid.init Nat).mutableWrite ⟨0, 0, 0⟩ 1).1 = none →
          ¬ capRange ⟨0, 0, 0⟩)
      ∧ (∀ b : Nat, (∀ j, inRangeBits b j → inRangeBits (b + 1) j)
          ∧ (∃ j, inRangeBits (b + 1) j ∧ ¬ inRangeBits b j))) :=
  ⟨⟨by decide, by decide⟩,
   c9_mutable_value_terminates (DynamicGrid.init Nat) ⟨0, 0, 0⟩ 1 (by decide) (by decide)⟩

/-- Reading a nested grid at the composite of a flat meta index `m` and a
flat inner index `k` reads the `k`-th cell of the `m`-th meta cell. -/
theorem NestedGrid.value_comp_nested {V : Type} [Inhabited V] (w : NestedGrid V) {m k : Int}
    (hm0 : 0 ≤ m) (hm1 : m < 512) (hk0 : 0 ≤ k) (hk1 : k < 512) :
    w.value ⟨(to3D m 3).x * 8 + (to3D k 3).x, (to3D m 3).y * 8 + (to3D k 3).y,
      (to3D m 3).z * 8 + (to3D k 3).z⟩ =
      match w.metaCells m with
      | none => default
      | some f => f.cells k := by
  obtain ⟨m1, m2, m3, m4, m5, m6⟩ := to3D_inCube hm0 (by omega : m < 2 ^ (3 * 3))
  obtain ⟨k1, k2, k3, k4, k5, k6⟩ := to3D_inCube hk0 (by omega : k < 2 ^ (3 * 3))
  rw [NestedGrid.value_eq_nested]
  have px : ((to3D m 3).x * 8 + (to3D k 3).x) / 8 = (to3D m 3).x := by omega
  have py : ((to3D m 3).y * 8 + (to3D k 3).y) / 8 = (to3D m 3).y := by omega
  have pz : ((to3D m 3).z * 8 + (to3D k 3).z) / 8 = (to3D m 3).z := by omega
  rw [px, py, pz]
  have heta : (⟨(to3D m 3).x, (to3D m 3).y, (to3D m 3).z⟩ : Idx3) = to3D m 3 := rfl
  rw [heta, toFlat_to3D m 3]
  cases hw : w.metaCells m with
  | none => rfl
  | some f =>
    have qx : (to3D m 3).x * 8 + (to3D k 3).x - (to3D m 3).x * 8 = (to3D k 3).x := by omega
    have qy : (to3D m 3).y * 8 + (to3D k 3).y - (to3D m 3).y * 8 = (to3D k 3).y := by omega
    have qz : (to3D m 3).z * 8 + (to3D k 3).z - (to3D m 3).z * 8 = (to3D k 3).z := by omega
    rw [qx, qy, qz]
    show f.cells (toFlat ⟨(to3D k 3).x, (to3D k 3).y, (to3D k 3).z⟩ 3) = f.cells k
    have heta2 : (⟨(to3D k 3).x, (to3D k 3).y, (to3D k 3).z⟩ : Idx3) = to3D k 3 := rfl
    rw [heta2, toFlat_to3D k 3]

/-- X component of the composite signed index. -/
theorem compIdx_x (bits : Nat) (n m k : Int) :
    (compIdx bits n m k).x
      = (to3D n bits).x * 64 + ((to3D m 3).x * 8 + (to3D k 3).x) - 2 ^ (bits - 1) * 64 := rfl

/-- Y component of the composite signed index. -/
theorem compIdx_y (bits : Nat) (n m k : Int) :
    (compIdx bits n m k).y
      = (to3D n bits).y * 64 + ((to3D m 3).y * 8 + (to3D k 3).y) - 2 ^ (bits - 1) * 64 := rfl

/-- Z component of the composite signed index. -/
theorem compIdx_z (bits : Nat) (n m k : Int) :
    (compIdx bits n m k).z
      = (to3D n bits).z * 64 + ((to3D m 3).z * 8 + (to3D k 3).z) - 2 ^ (bits - 1) * 64 := rfl

/-- Reading the dynamic grid at the composite signed index of flat outer,
nested and inner indices reads the corresponding cell of the hierarchy. -/
theorem DynamicGrid.value_comp {V : Type} [Inhabited V] (g : DynamicGrid V)
    (hb : 1 ≤ g.bits) {n m k : Int} (hn0 : 0 ≤ n) (hn1 : n < 2 ^ (3 * g.bits))
    (hm0 : 0 ≤ m) (hm1 : m < 512) (hk0 : 0 ≤ k) (hk1 : k < 512) :
    g.value (compIdx g.bits n m k) =
      match g.metaCells n with
      | none => default
      | some w =>
        match w.metaCells m with
        | none => default
        | some f => f.cells k := by
  obtain ⟨n1, n2, n3, n4, n5, n6⟩ := to3D_inCube hn0 hn1
  obtain ⟨m1, m2, m3, m4, m5, m6⟩ := to3D_inCube hm0 (by omega : m < 2 ^ (3 * 3))
  obtain ⟨k1, k2, k3, k4, k5, k6⟩ := to3D_inCube hk0 (by omega : k < 2 ^ (3 * 3))
  have h2b : (2 : Int) ^ g.bits = 2 * 2 ^ (g.bits - 1) := by
    conv_lhs => rw [show g.bits = (g.bits - 1) + 1 from by omega]
    rw [pow_succ]; ring
  have hrange : g.inRange (compIdx g.bits n m k) := by
    refine DynamicGrid.inRange_intro _ _ ?_ ?_ ?_ ?_ ?_ ?_ <;>
      simp only [compIdx_x, compIdx_y, compIdx_z] <;> omega
  rw [DynamicGrid.value_eq, if_pos hrange]
  simp only [compIdx_x, compIdx_y, compIdx_z]
  have px : ((to3D n g.bits).x * 64 + ((to3D m 3).x * 8 + (to3D k 3).x)
      - 2 ^ (g.bits - 1) * 64 + 32 * 2 ^ g.bits) / 64 = (to3D n g.bits).x := by omega
  have py : ((to3D n g.bits).y * 64 + ((to3D m 3).y * 8 + (to3D k 3).y)
      - 2 ^ (g.bits - 1) * 64 + 32 * 2 ^ g.bits) / 64 = (to3D n g.bits).y := by omega
  have pz : ((to3D n g.bits).z * 64 + ((to3D m 3).z * 8 + (to3D k 3).z)
      - 2 ^ (g.bits - 1) * 64 + 32 * 2 ^ g.bits) / 64 = (to3D n g.bits).z := by omega
  rw [px, py, pz]
  have heta : (⟨(to3D n g.bits).x, (to3D n g.bits).y, (to3D n g.bits).z⟩ : Idx3)
      = to3D n g.bits := rfl
  rw [heta, toFlat_to3D n g.bits]
  cases hwn : g.metaCells n with
  | none => rfl
  | some w =>
    have ix : (to3D n g.bits).x * 64 + ((to3D m 3).x * 8 + (to3D k 3).x)
        - 2 ^ (g.bits - 1) * 64 + 32 * 2 ^ g.bits - (to3D n g.bits).x * 64
        = (to3D m 3).x * 8 + (to3D k 3).x := by omega
    have iy : (to3D n g.bits).y * 64 + ((to3D m 3).y * 8 + (to3D k 3).y)
        - 2 ^ (g.bits - 1) * 64 + 32 * 2 ^ g.bits - (to3D n g.bits).y * 64
        = (to3D m 3).y * 8 + (to3D k 3).y := by omega
    have iz : (to3D n g.bits).z * 64 + ((to3D m 3).z * 8 + (to3D k 3).z)
        - 2 ^ (g.bits - 1) * 64 + 32 * 2 ^ g.bits - (to3D n g.bits).z * 64
        = (to3D m 3).z * 8 + (to3D k 3).z := by omega
    rw [ix, iy, iz]
    exact NestedGrid.value_comp_nested w hm0 hm1 hk0 hk1

/-- Filtering with a constantly-empty picker yields the empty list. -/
theorem filterMap_none_eq_nil {α β : Type} (l : List α) :
    (l.filterMap fun _ => (none : Option β)) = [] := by
  induction l with
  | nil => rfl
  | cons a l ih => simpa [List.filterMap_cons] using ih

/-- Membership in the integer range. -/
theorem mem_rangeZ {N : Nat} {n : Int} : n ∈ rangeZ N ↔ 0 ≤ n ∧ n < N := by
  unfold rangeZ
  constructor
  · intro h
    obtain ⟨t, ht, rfl⟩ := List.mem_map.mp h
    have := List.mem_range.mp ht
    exact ⟨Int.natCast_nonneg t, by exact_mod_cast this⟩
  · intro ⟨h0, h1⟩
    refine List.mem_map.mpr ⟨n.toNat, List.mem_range.mpr (by omega), Int.toNat_of_nonneg h0⟩

/-- The integer range has no duplicates. -/
theorem rangeZ_nodup (N : Nat) : (rangeZ N).Nodup :=
  List.Nodup.map_on (fun x _ y _ h => by exact_mod_cast h) (List.nodup_range N)

/-- The nested iterator as a double scan over flat meta and inner indices
with an explicit cell-level picker. -/
theorem NestedGrid.iter_eq {V : Type} [Inhabited V] [DecidableEq V] (w : NestedGrid V) :
    w.iter = (rangeZ 512).flatMap fun m =>
      (rangeZ 512).filterMap fun k =>
        match w.metaCells m with
        | none => none
        | some f =>
          if f.cells k = default then none
          else some ((⟨(to3D m 3).x * 8 + (to3D k 3).x,
              (to3D m 3).y * 8 + (to3D k 3).y,
              (to3D m 3).z * 8 + (to3D k 3).z⟩ : Idx3), f.cells k) := by
  unfold NestedGrid.iter
  refine List.flatMap_congr fun m hm => ?_
  cases hwm : w.metaCells m with
  | none => exact (filterMap_none_eq_nil _).symm
  | some f =>
    dsimp only
    unfold FlatGrid.iter
    rw [List.map_filterMap]
    refine List.filterMap_congr fun k hk => ?_
    dsimp only
    by_cases hv : f.cells k = default
    · rw [if_pos hv, if_pos hv]; rfl
    · rw [if_neg hv, if_neg hv]; rfl

/-- The dynamic iterator as a triple scan over flat outer, nested and
inner indices with an explicit cell-level picker. -/
theorem DynamicGrid.iter_eq_cells {V : Type} [Inhabited V] [DecidableEq V]
    (g : DynamicGrid V) :
    g.iter = (rangeZ (2 ^ (3 * g.bits))).flatMap fun n =>
      (rangeZ 512).flatMap fun m =>
        (rangeZ 512).filterMap fun k =>
          match g.metaCells n with
          | none => none
          | some w =>
            match w.metaCells m with
            | none => none
            | some f =>
              if f.cells k = default then none
              else some (compIdx g.bits n m k, f.cells k) := by
  unfold DynamicGrid.iter
  refine List.flatMap_congr fun n hn => ?_
  cases hwn : g.metaCells n with
  | none =>
    symm
    rw [List.flatMap_eq_nil_iff]
    intro m hm
    exact filterMap_none_eq_nil _
  | some w =>
    dsimp only
    rw [NestedGrid.iter_eq w, List.map_flatMap]
    refine List.flatMap_congr fun m hm => ?_
    rw [List.map_filterMap]
    refine List.filterMap_congr fun k hk => ?_
    cases hwm : w.metaCells m with
    | none => rfl
    | some f =>
      dsimp only
      by_cases hv : f.cells k = default
      · rw [if_pos hv, if_pos hv]; rfl
      · rw [if_neg hv, if_neg hv]; rfl

/-- The dynamic iterator equals the filter of the hierarchical enumeration
order by the read path: exactly the non-default cells are yielded, in
enumeration order, keyed by their signed voxel index. -/
theorem DynamicGrid.iter_eq_value {V : Type} [Inhabited V] [DecidableEq V]
    (g : DynamicGrid V) (hb : 1 ≤ g.bits) :
    g.iter = (enumIdx g.bits).filterMap fun idx =>
      if g.value idx = default then none else some (idx, g.value idx) := by
  rw [DynamicGrid.iter_eq_cells]
  unfold enumIdx
  rw [List.filterMap_flatMap]
  refine List.flatMap_congr fun n hn => ?_
  rw [List.filterMap_flatMap]
  refine List.flatMap_congr fun m hm => ?_
  rw [List.filterMap_map]
  refine List.filterMap_congr fun k hk => ?_
  obtain ⟨hn0, hn1⟩ := mem_rangeZ.mp hn
  obtain ⟨hm0, hm1⟩ := mem_rangeZ.mp hm
  obtain ⟨hk0, hk1⟩ := mem_rangeZ.mp hk
  have hval := DynamicGrid.value_comp g hb hn0 (by exact_mod_cast hn1) hm0
    (by exact_mod_cast hm1) hk0 (by exact_mod_cast hk1)
  show _ = if g.value (compIdx g.bits n m k) = default then none
    else some (compIdx g.bits n m k, g.value (compIdx g.bits n m k))
  rw [hval]
  cases hwn : g.metaCells n with
  | none => dsimp only; rw [if_pos rfl]
  | some w =>
    dsimp only
    cases hwm : w.metaCells m with
    | none => dsimp only; rw [if_pos rfl]
    | some f => rfl

/-- Every index produced by the hierarchical enumeration is addressable. -/
theorem mem_enumIdx_inRange {bits : Nat} (hb : 1 ≤ bits) {idx : Idx3}
    (h : idx ∈ enumIdx bits) : inRangeBits bits idx := by
  unfold enumIdx at h
  obtain ⟨n, hn, h⟩ := List.mem_flatMap.mp h
  obtain ⟨m, hm, h⟩ := List.mem_flatMap.mp h
  obtain ⟨k, hk, rfl⟩ := List.mem_map.mp h
  obtain ⟨hn0, hn1⟩ := mem_rangeZ.mp hn
  obtain ⟨hm0, hm1⟩ := mem_rangeZ.mp hm
  obtain ⟨hk0, hk1⟩ := mem_rangeZ.mp hk
  obtain ⟨n1, n2, n3, n4, n5, n6⟩ := to3D_inCube hn0 (by exact_mod_cast hn1)
  obtain ⟨m1, m2, m3, m4, m5, m6⟩ :=
    to3D_inCube hm0 (show m < 2 ^ (3 * 3) by exact_mod_cast hm1)
  obtain ⟨k1, k2, k3, k4, k5, k6⟩ :=
    to3D_inCube hk0 (show k < 2 ^ (3 * 3) by exact_mod_cast hk1)
  have h2b : (2 : Int) ^ bits = 2 * 2 ^ (bits - 1) := by
    conv_lhs => rw [show bits = (bits - 1) + 1 from by omega]
    rw [pow_succ]; ring
  refine inCube_mk ?_ ?_ ?_ ?_ ?_ ?_ <;>
    simp only [compIdx_x, compIdx_y, compIdx_z] <;> omega

/-- Every addressable index is produced by the hierarchical enumeration. -/
theorem inRange_mem_enumIdx {bits : Nat} (hb : 1 ≤ bits) {idx : Idx3}
    (h : inRangeBits bits idx) : idx ∈ enumIdx bits := by
  obtain ⟨s1, s2, s3, s4, s5, s6⟩ := h
  simp only at s1 s2 s3 s4 s5 s6
  have h2b : (2 : Int) ^ bits = 2 * 2 ^ (bits - 1) := by
    conv_lhs => rw [show bits = (bits - 1) + 1 from by omega]
    rw [pow_succ]; ring
  have ha : inCube (⟨(idx.x + 32 * 2 ^ bits) / 64, (idx.y + 32 * 2 ^ bits) / 64,
      (idx.z + 32 * 2 ^ bits) / 64⟩ : Idx3) (2 ^ bits) :=
    inCube_mk (by omega) (by omega) (by omega) (by omega) (by omega) (by omega)
  have hbm : inCube (⟨(idx.x + 32 * 2 ^ bits) % 64 / 8, (idx.y + 32 * 2 ^ bits) % 64 / 8,
      (idx.z + 32 * 2 ^ bits) % 64 / 8⟩ : Idx3) (2 ^ 3) :=
    inCube_mk (by omega) (by omega) (by omega) (by omega) (by omega) (by omega)
  have hcm : inCube (⟨(idx.x + 32 * 2 ^ bits) % 64 % 8, (idx.y + 32 * 2 ^ bits) % 64 % 8,
      (idx.z + 32 * 2 ^ bits) % 64 % 8⟩ : Idx3) (2 ^ 3) :=
    inCube_mk (by omega) (by omega) (by omega) (by omega) (by omega) (by omega)
  obtain ⟨hfa0, hfa1⟩ := toFlat_bounds ha
  obtain ⟨hfb0, hfb1⟩ := toFlat_bounds hbm
  obtain ⟨hfc0, hfc1⟩ := toFlat_bounds hcm
  refine List.mem_flatMap.mpr ⟨toFlat ⟨(idx.x + 32 * 2 ^ bits) / 64,
    (idx.y + 32 * 2 ^ bits) / 64, (idx.z + 32 * 2 ^ bits) / 64⟩ bits,
    mem_rangeZ.mpr ⟨hfa0, by exact_mod_cast hfa1⟩, ?_⟩
  refine List.mem_flatMap.mpr ⟨toFlat ⟨(idx.x + 32 * 2 ^ bits) % 64 / 8,
    (idx.y + 32 * 2 ^ bits) % 64 / 8, (idx.z + 32 * 2 ^ bits) % 64 / 8⟩ 3,
    mem_rangeZ.mpr ⟨hfb0, by exact_mod_cast hfb1⟩, ?_⟩
  refine List.mem_map.mpr ⟨toFlat ⟨(idx.x + 32 * 2 ^ bits) % 64 % 8,
    (idx.y + 32 * 2 ^ bits) % 64 % 8, (idx.z + 32 * 2 ^ bits) % 64 % 8⟩ 3,
    mem_rangeZ.mpr ⟨hfc0, by exact_mod_cast hfc1⟩, ?_⟩
  rw [show compIdx bits (toFlat ⟨(idx.x + 32 * 2 ^ bits) / 64,
      (idx.y + 32 * 2 ^ bits) / 64, (idx.z + 32 * 2 ^ bits) / 64⟩ bits)
      (toFlat ⟨(idx.x + 32 * 2 ^ bits) % 64 / 8, (idx.y + 32 * 2 ^ bits) % 64 / 8,
        (idx.z + 32 * 2 ^ bits) % 64 / 8⟩ 3)
      (toFlat ⟨(idx.x + 32 * 2 ^ bits) % 64 % 8, (idx.y + 32 * 2 ^ bits) % 64 % 8,
        (idx.z + 32 * 2 ^ bits) % 64 % 8⟩ 3) = idx from ?_]
  unfold compIdx
  rw [to3D_toFlat ha, to3D_toFlat hbm, to3D_toFlat hcm]
  have ex : (idx.x + 32 * 2 ^ bits) / 64 * 64
      + ((idx.x + 32 * 2 ^ bits) % 64 / 8 * 8 + (idx.x + 32 * 2 ^ bits) % 64 % 8)
      - 2 ^ (bits - 1) * 64 = idx.x := by omega
  have ey : (idx.y + 32 * 2 ^ bits) / 64 * 64
      + ((idx.y + 32 * 2 ^ bits) % 64 / 8 * 8 + (idx.y + 32 * 2 ^ bits) % 64 % 8)
      - 2 ^ (bits - 1) * 64 = idx.y := by omega
  have ez : (idx.z + 32 * 2 ^ bits) / 64 * 64
      + ((idx.z + 32 * 2 ^ bits) % 64 / 8 * 8 + (idx.z + 32 * 2 ^ bits) % 64 % 8)
      - 2 ^ (bits - 1) * 64 = idx.z := by omega
  show (⟨_, _, _⟩ : Idx3) = idx
  rw [show ((⟨(idx.x + 32 * 2 ^ bits) / 64, (idx.y + 32 * 2 ^ bits) / 64,
      (idx.z + 32 * 2 ^ bits) / 64⟩ : Idx3)).x = (idx.x + 32 * 2 ^ bits) / 64 from rfl]
  cases idx
  simp only [Idx3.mk.injEq]
  exact ⟨ex, ey, ez⟩

/-- Extensionality of indices from component equalities. -/
theorem Idx3.ext3 {a b : Idx3} (hx : a.x = b.x) (hy : a.y = b.y) (hz : a.z = b.z) :
    a = b := by
  cases a; cases b; simp_all

/-- The composite signed index determines its three flat indices. -/
theorem compIdx_inj {bits : Nat} (hb : 1 ≤ bits) {n m k n' m' k' : Int}
    (hn0 : 0 ≤ n) (hn1 : n < 2 ^ (3 * bits)) (hm0 : 0 ≤ m) (hm1 : m < 512)
    (hk0 : 0 ≤ k) (hk1 : k < 512)
    (hn0' : 0 ≤ n') (hn1' : n' < 2 ^ (3 * bits)) (hm0' : 0 ≤ m') (hm1' : m' < 512)
    (hk0' : 0 ≤ k') (hk1' : k' < 512)
    (h : compIdx bits n m k = compIdx bits n' m' k') : n = n' ∧ m = m' ∧ k = k' := by
  obtain ⟨a1, a2, a3, a4, a5, a6⟩ := to3D_inCube hn0 hn1
  obtain ⟨b1, b2, b3, b4, b5, b6⟩ := to3D_inCube hm0 (by omega : m < 2 ^ (3 * 3))
  obtain ⟨c1, c2, c3, c4, c5, c6⟩ := to3D_inCube hk0 (by omega : k < 2 ^ (3 * 3))
  obtain ⟨a1', a2', a3', a4', a5', a6'⟩ := to3D_inCube hn0' hn1'
  obtain ⟨b1', b2', b3', b4', b5', b6'⟩ := to3D_inCube hm0' (by omega : m' < 2 ^ (3 * 3))
  obtain ⟨c1', c2', c3', c4', c5', c6'⟩ := to3D_inCube hk0' (by omega : k' < 2 ^ (3 * 3))
  have ex := congrArg Idx3.x h
  have ey := congrArg Idx3.y h
  have ez := congrArg Idx3.z h
  rw [compIdx_x, compIdx_x] at ex
  rw [compIdx_y, compIdx_y] at ey
  rw [compIdx_z, compIdx_z] at ez
  have hax : (to3D n bits).x = (to3D n' bits).x := by omega
  have hay : (to3D n bits).y = (to3D n' bits).y := by omega
  have haz : (to3D n bits).z = (to3D n' bits).z := by omega
  have hbx : (to3D m 3).x = (to3D m' 3).x := by omega
  have hby : (to3D m 3).y = (to3D m' 3).y := by omega
  have hbz : (to3D m 3).z = (to3D m' 3).z := by omega
  have hcx : (to3D k 3).x = (to3D k' 3).x := by omega
  have hcy : (to3D k 3).y = (to3D k' 3).y := by omega
  have hcz : (to3D k 3).z = (to3D k' 3).z := by omega
  refine ⟨?_, ?_, ?_⟩
  · rw [← toFlat_to3D n bits, ← toFlat_to3D n' bits, Idx3.ext3 hax hay haz]
  · rw [← toFlat_to3D m 3, ← toFlat_to3D m' 3, Idx3.ext3 hbx hby hbz]
  · rw [← toFlat_to3D k 3, ← toFlat_to3D k' 3, Idx3.ext3 hcx hcy hcz]

/-- The hierarchical enumeration lists every index exactly once. -/
theorem enumIdx_nodup {bits : Nat} (hb : 1 ≤ bits) : (enumIdx bits).Nodup := by
  unfold enumIdx
  rw [List.nodup_flatMap]
  constructor
  · intro n hn
    obtain ⟨hn0, hn1⟩ := mem_rangeZ.mp hn
    have hn1' : n < 2 ^ (3 * bits) := by exact_mod_cast hn1
    rw [List.nodup_flatMap]
    constructor
    · intro m hm
      obtain ⟨hm0, hm1⟩ := mem_rangeZ.mp hm
      refine List.Nodup.map_on ?_ (rangeZ_nodup 512)
      intro p hp q hq heq
      obtain ⟨hp0, hp1⟩ := mem_rangeZ.mp hp
      obtain ⟨hq0, hq1⟩ := mem_rangeZ.mp hq
      exact (compIdx_inj hb hn0 hn1' hm0 (by exact_mod_cast hm1) hp0
        (by exact_mod_cast hp1) hn0 hn1' hm0 (by exact_mod_cast hm1) hq0
        (by exact_mod_cast hq1) heq).2.2
    · refine List.Pairwise.imp_of_mem ?_ (rangeZ_nodup 512)
      intro p q hp hq hne idx h1 h2
      obtain ⟨hp0, hp1⟩ := mem_rangeZ.mp hp
      obtain ⟨hq0, hq1⟩ := mem_rangeZ.mp hq
      obtain ⟨u, hu, hueq⟩ := List.mem_map.mp h1
      obtain ⟨w, hw, hweq⟩ := List.mem_map.mp h2
      obtain ⟨hu0, hu1⟩ := mem_rangeZ.mp hu
      obtain ⟨hw0, hw1⟩ := mem_rangeZ.mp hw
      exact hne ((compIdx_inj hb hn0 hn1' hp0 (by exact_mod_cast hp1) hu0
        (by exact_mod_cast hu1) hn0 hn1' hq0 (by exact_mod_cast hq1) hw0
        (by exact_mod_cast hw1) (hueq.trans hweq.symm)).2.1)
  · refine List.Pairwise.imp_of_mem ?_ (rangeZ_nodup (2 ^ (3 * bits)))
    intro p q hp hq hne idx h1 h2
    obtain ⟨hp0, hp1⟩ := mem_rangeZ.mp hp
    obtain ⟨hq0, hq1⟩ := mem_rangeZ.mp hq
    obtain ⟨m1, hm1, h1⟩ := List.mem_flatMap.mp h1
    obtain ⟨m2, hm2, h2⟩ := List.mem_flatMap.mp h2
    obtain ⟨u, hu, hueq⟩ := List.mem_map.mp h1
    obtain ⟨w, hw, hweq⟩ := List.mem_map.mp h2
    obtain ⟨hm10, hm11⟩ := mem_rangeZ.mp hm1
    obtain ⟨hm20, hm21⟩ := mem_rangeZ.mp hm2
    obtain ⟨hu0, hu1⟩ := mem_rangeZ.mp hu
    obtain ⟨hw0, hw1⟩ := mem_rangeZ.mp hw
    exact hne ((compIdx_inj hb hp0 (by exact_mod_cast hp1) hm10 (by exact_mod_cast hm11)
      hu0 (by exact_mod_cast hu1) hq0 (by exact_mod_cast hq1) hm20
      (by exact_mod_cast hm21) hw0 (by exact_mod_cast hw1)
      (hueq.trans hweq.symm)).1)

/-- Mapping the key extractor over a filter whose picker preserves keys
gives a sublist of the scanned list. -/
theorem filterMap_fst_sublist {α β : Type} (l : List α) (f : α → Option β) (p : β → α)
    (hf : ∀ a b, f a = some b → p b = a) : ((l.filterMap f).map p).Sublist l := by
  induction l with
  | nil => exact List.Sublist.refl []
  | cons a l ih =>
    cases hfa : f a with
    | none =>
      rw [List.filterMap_cons_none hfa]
      exact List.Sublist.cons a ih
    | some b =>
      rw [List.filterMap_cons_some hfa, List.map_cons, hf a b hfa]
      exact List.Sublist.cons₂ a ih

/-- Membership in the iterator sequence is exactly holding a non-default
value at the index. -/
theorem DynamicGrid.mem_iter_iff {V : Type} [Inhabited V] [DecidableEq V]
    (g : DynamicGrid V) (hb : 1 ≤ g.bits) (idx : Idx3) (v : V) :
    (idx, v) ∈ g.iter ↔ (g.value idx = v ∧ v ≠ default) := by
  rw [DynamicGrid.iter_eq_value g hb, List.mem_filterMap]
  constructor
  · rintro ⟨a, ha, hpick⟩
    by_cases hd : g.value a = default
    · rw [if_pos hd] at hpick
      exact absurd hpick (by simp)
    · rw [if_neg hd] at hpick
      have hpair := Option.some.inj hpick
      have h1 : a = idx := congrArg Prod.fst hpair
      have h2 : g.value a = v := congrArg Prod.snd hpair
      subst h1
      exact ⟨h2, h2 ▸ hd⟩
  · rintro ⟨hval, hne⟩
    have hin : inRangeBits g.bits idx := by
      by_contra hno
      have hdef : g.value idx = default :=
        DynamicGrid.not_inRange_value g idx
          (fun hc => hno ((DynamicGrid.inRange_iff_bits g idx).mp hc))
      rw [hval] at hdef
      exact hne hdef
    refine ⟨idx, inRange_mem_enumIdx hb hin, ?_⟩
    rw [if_neg (by rw [hval]; exact hne), hval]

/-- C4: iteration yields exactly one entry for every cell whose current
value differs from the default and nothing else, in the deterministic
hierarchical z-major order (outer meta ascending, then nested meta, then
inner flat index), the yielded index being
`meta * 64 + inner - 2^(bits - 1) * 64`. -/
theorem c4_iterator_complete {V : Type} [Inhabited V] [DecidableEq V]
    (g : DynamicGrid V) (hb : 1 ≤ g.bits) :
    g.iter = ((enumIdx g.bits).filterMap fun idx =>
        if g.value idx = default then none else some (idx, g.value idx))
    ∧ (∀ idx v, (idx, v) ∈ g.iter ↔ (g.value idx = v ∧ v ≠ default))
    ∧ (g.iter.map Prod.fst).Nodup := by
  have heq := DynamicGrid.iter_eq_value g hb
  refine ⟨heq, fun idx v => DynamicGrid.mem_iter_iff g hb idx v, ?_⟩
  rw [heq]
  refine List.Nodup.sublist
    (filterMap_fst_sublist (enumIdx g.bits) _ Prod.fst ?_) (enumIdx_nodup hb)
  intro a b h
  by_cases hd : g.value a = default
  · rw [if_pos hd] at h
    exact absurd h (by simp)
  · rw [if_neg hd] at h
    have := Option.some.inj h
    exact congrArg Prod.fst this.symm

/-- Witness for C4 on the fresh grid. -/
theorem c4_iterator_complete_witness :
    1 ≤ (DynamicGrid.init Nat).bits
    ∧ ((DynamicGrid.init Nat).iter
        = ((enumIdx (DynamicGrid.init Nat).bits).filterMap fun idx =>
            if (DynamicGrid.init Nat).value idx = default then none
            else some (idx, (DynamicGrid.init Nat).value idx))
      ∧ (∀ idx v, (idx, v) ∈ (DynamicGrid.init Nat).iter
          ↔ ((DynamicGrid.init Nat).value idx = v ∧ v ≠ default))
      ∧ ((DynamicGrid.init Nat).iter.map Prod.fst).Nodup) :=
  ⟨by decide, c4_iterator_complete (DynamicGrid.init Nat) (by decide)⟩

/-- Rounding the half-shifted floor is a nearest integer. -/
theorem floor_half_nearest (t : ℚ) (m : Int) :
    |(⌊t + 1 / 2⌋ : ℚ) - t| ≤ |(m : ℚ) - t| := by
  have h1 : ((⌊t + 1 / 2⌋ : Int) : ℚ) ≤ t + 1 / 2 := Int.floor_le _
  have h2 : t + 1 / 2 < (⌊t + 1 / 2⌋ : ℚ) + 1 := Int.lt_floor_add_one _
  have hr : |(⌊t + 1 / 2⌋ : ℚ) - t| ≤ 1 / 2 := by
    rw [abs_le]
    constructor <;> linarith
  rcases lt_trichotomy m ⌊t + 1 / 2⌋ with hm | hm | hm
  · have hm1 : (m : ℚ) + 1 ≤ (⌊t + 1 / 2⌋ : ℚ) := by exact_mod_cast hm
    have hd : (1 : ℚ) / 2 ≤ t - m := by linarith
    have : (1 : ℚ) / 2 ≤ |(m : ℚ) - t| := by
      rw [abs_sub_comm]
      exact le_trans hd (le_abs_self _)
    linarith
  · rw [hm]
  · have hm1 : (⌊t + 1 / 2⌋ : ℚ) + 1 ≤ (m : ℚ) := by exact_mod_cast hm
    have hd : (1 : ℚ) / 2 ≤ (m : ℚ) - t := by linarith
    have : (1 : ℚ) / 2 ≤ |(m : ℚ) - t| := le_trans hd (le_abs_self _)
    linarith

/-- The model of `std::lround` returns a nearest integer to its
argument. -/
theorem lroundQ_nearest (q : ℚ) (m : Int) :
    |(lroundQ q : ℚ) - q| ≤ |(m : ℚ) - q| := by
  unfold lroundQ
  by_cases hq : 0 ≤ q
  · rw [if_pos hq]
    exact floor_half_nearest q m
  · rw [if_neg hq]
    have e1 : ((-(⌊-q + 1 / 2⌋ : Int) : Int) : ℚ) - q = -((⌊-q + 1 / 2⌋ : ℚ) - -q) := by
      push_cast
      ring
    have e2 : (m : ℚ) - q = -(((-m : Int) : ℚ) - -q) := by
      push_cast
      ring
    rw [show (Rat.floor (-q + 1 / 2)) = ⌊-q + 1 / 2⌋ from rfl, e1, e2, abs_neg, abs_neg]
    exact floor_half_nearest (-q) (-m)

/-- At an exact tie the model of `std::lround` rounds away from zero: the
result's magnitude exceeds the argument's magnitude by one half. -/
theorem lroundQ_tie (q : ℚ) (h : q - (⌊q⌋ : ℚ) = 1 / 2) :
    |(lroundQ q : ℚ)| = |q| + 1 / 2 := by
  unfold lroundQ
  by_cases hq : 0 ≤ q
  · rw [if_pos hq]
    have hf : (0 : Int) ≤ ⌊q⌋ := Int.floor_nonneg.mpr hq
    have e1 : q + 1 / 2 = ((⌊q⌋ + 1 : Int) : ℚ) := by
      push_cast
      linarith
    rw [show (Rat.floor (q + 1 / 2)) = ⌊q + 1 / 2⌋ from rfl, e1, Int.floor_intCast]
    have hval : ((⌊q⌋ + 1 : Int) : ℚ) = q + 1 / 2 := e1.symm
    rw [abs_of_nonneg (by push_cast; linarith : (0 : ℚ) ≤ ((⌊q⌋ + 1 : Int) : ℚ)),
      abs_of_nonneg hq, hval]
  · rw [if_neg hq]
    push_neg at hq
    have hf : ⌊q⌋ ≤ -1 := by
      have hcast : (⌊q⌋ : ℚ) < 0 := lt_of_le_of_lt (Int.floor_le q) hq
      have hlt : ⌊q⌋ < 0 := by exact_mod_cast hcast
      omega
    have e1 : -q + 1 / 2 = ((-⌊q⌋ : Int) : ℚ) := by
      push_cast
      linarith
    rw [show (Rat.floor (-q + 1 / 2)) = ⌊-q + 1 / 2⌋ from rfl, e1, Int.floor_intCast, neg_neg]
    have h1 : ((⌊q⌋ : Int) : ℚ) = q - 1 / 2 := by linarith
    rw [abs_of_nonpos (by rw [h1]; linarith : ((⌊q⌋ : Int) : ℚ) ≤ 0),
      abs_of_neg hq, h1]
    ring

/-- Property stated by the amended C5: the integer is a nearest integer to
the rational, and exact ties resolve away from zero (the magnitude grows
by one half). -/
def RoundsNearestTiesAway (z : Int) (q : ℚ) : Prop :=
  (∀ m : Int, |(z : ℚ) - q| ≤ |(m : ℚ) - q|)
  ∧ (q - (⌊q⌋ : ℚ) = 1 / 2 → |(z : ℚ)| = |q| + 1 / 2)

/-- The floor of one half is zero. -/
theorem ratFloor_half : Rat.floor ((1 : ℚ) / 2) = 0 := by
  show ⌊(1 : ℚ) / 2⌋ = 0
  rw [Int.floor_eq_zero_iff]
  constructor <;> norm_num

/-- The floor of zero is zero. -/
theorem ratFloor_zero : Rat.floor (0 : ℚ) = 0 := by
  show ⌊(0 : ℚ)⌋ = 0
  exact Int.floor_zero

/-- The model of `std::lround` maps one half to one (away from zero). -/
theorem lroundQ_half : lroundQ ((1 : ℚ) / 2) = 1 := by
  unfold lroundQ
  rw [if_pos (by norm_num)]
  show ⌊(1 : ℚ) / 2 + 1 / 2⌋ = 1
  rw [show ((1 : ℚ) / 2 + 1 / 2) = 1 by norm_num]
  exact Int.floor_one

/-- The model of `std::lround` maps zero to zero. -/
theorem lroundQ_zero : lroundQ 0 = 0 := by
  unfold lroundQ
  rw [if_pos le_rfl]
  show ⌊(0 : ℚ) + 1 / 2⌋ = 0
  rw [show ((0 : ℚ) + 1 / 2) = 1 / 2 by norm_num]
  exact ratFloor_half

/-- Half-to-even rounding maps one half to zero (toward the even
neighbor). -/
theorem roundHalfToEven_half : roundHalfToEven ((1 : ℚ) / 2) = 0 := by
  unfold roundHalfToEven
  rw [ratFloor_half]
  norm_num

/-- Half-to-even rounding maps zero to zero. -/
theorem roundHalfToEven_zero : roundHalfToEven 0 = 0 := by
  unfold roundHalfToEven
  rw [ratFloor_zero]
  norm_num [lroundQ_zero]

/-- C5 counterexample: at the metric point `(1/2, 0, 0)` with resolution
1, `GetCellIndex` (via `std::lround`) yields voxel `(1, 0, 0)`, while the
specification's half-to-even rounding would yield `(0, 0, 0)`. -/
theorem c5_counterexample :
    getCellIndex 1 ⟨1 / 2, 0, 0⟩ = ⟨1, 0, 0⟩
    ∧ getCellIndexSpec 1 ⟨1 / 2, 0, 0⟩ = ⟨0, 0, 0⟩
    ∧ (⟨1, 0, 0⟩ : Idx3) ≠ ⟨0, 0, 0⟩ := by
  refine ⟨?_, ?_, by decide⟩
  · unfold getCellIndex
    dsimp only
    rw [show ((1 : ℚ) / 2 / 1) = 1 / 2 by norm_num, show ((0 : ℚ) / 1) = 0 by norm_num,
      lroundQ_half, lroundQ_zero]
  · unfold getCellIndexSpec
    dsimp only
    rw [show ((1 : ℚ) / 2 / 1) = 1 / 2 by norm_num, show ((0 : ℚ) / 1) = 0 by norm_num,
      roundHalfToEven_half, roundHalfToEven_zero]

/-- C5 as amended: `GetCellIndex` rounds each axis of `point/resolution`
to a nearest integer with the same semantics on all three axes, but ties
at exactly .5 round half away from zero (the semantics of `std::lround`),
not half to even. -/
theorem c5_rounding_semantics (resolution : ℚ) (p : Point) :
    RoundsNearestTiesAway ((getCellIndex resolution p).x) (p.px / resolution)
    ∧ RoundsNearestTiesAway ((getCellIndex resolution p).y) (p.py / resolution)
    ∧ RoundsNearestTiesAway ((getCellIndex resolution p).z) (p.pz / resolution) :=
  ⟨⟨fun m => lroundQ_nearest _ m, fun h => lroundQ_tie _ h⟩,
   ⟨fun m => lroundQ_nearest _ m, fun h => lroundQ_tie _ h⟩,
   ⟨fun m => lroundQ_nearest _ m, fun h => lroundQ_tie _ h⟩⟩

/-- One surround step never changes the grid component (the read path is
const). -/
theorem surroundStep_fst (r : ℚ) (pose : Point → Point)
    (st : DynamicGrid CellV × List Idx3) (p : Point) :
    (surroundStep r pose st p).1 = st.1 := by
  simp only [surroundStep]
  split
  · rfl
  · split <;> rfl

/-- The surround loop never changes the grid component. -/
theorem surroundLoop_fst (r : ℚ) (pose : Point → Point) (l : List Point) :
    ∀ st : DynamicGrid CellV × List Idx3,
      (l.foldl (surroundStep r pose) st).1 = st.1 := by
  induction l with
  | nil => intro st; rfl
  | cons p l ih =>
    intro st
    rw [List.foldl_cons, ih (surroundStep r pose st p), surroundStep_fst]

/-- Membership in the touched-set insertion. -/
theorem mem_insertTouched {t : List Idx3} {i j : Idx3} :
    j ∈ insertTouched t i ↔ j ∈ t ∨ j = i := by
  unfold insertTouched
  by_cases h : i ∈ t
  · rw [if_pos h]
    constructor
    · exact Or.inl
    · rintro (hj | rfl)
      · exact hj
      · exact h
  · rw [if_neg h, List.mem_append, List.mem_singleton]

/-- A far point leaves the surround state unchanged. -/
theorem surroundStep_far {r : ℚ} {pose : Point → Point}
    {st : DynamicGrid CellV × List Idx3} {p : Point} (h : 100 * 100 < normSq p) :
    surroundStep r pose st p = st := by
  simp only [surroundStep]
  rw [if_pos h]

/-- The surround loop ignores points beyond the radius entirely. -/
theorem surroundLoop_filter (r : ℚ) (pose : Point → Point) (l : List Point) :
    ∀ st : DynamicGrid CellV × List Idx3,
      l.foldl (surroundStep r pose) st
        = (l.filter fun p => decide (normSq p ≤ 100 * 100)).foldl
            (surroundStep r pose) st := by
  induction l with
  | nil => intro st; rfl
  | cons p l ih =>
    intro st
    rw [List.foldl_cons, List.filter_cons]
    by_cases h : normSq p ≤ 100 * 100
    · rw [if_pos (by simpa using h), List.foldl_cons]
      exact ih (surroundStep r pose st p)
    · rw [if_neg (by simpa using h), surroundStep_far (by exact lt_of_not_ge h)]
      exact ih st

/-- The touched set accumulated by the surround loop: the transformed
cell indices of the retained points, filtered by a non-null cloud handle
in the (unchanged) grid, inserted in order. -/
theorem surroundLoop_snd (r : ℚ) (pose : Point → Point) (l : List Point) :
    ∀ st : DynamicGrid CellV × List Idx3,
      (l.foldl (surroundStep r pose) st).2
        = ((((l.filter fun p => decide (normSq p ≤ 100 * 100)).map
              fun p => getCellIndex r (pose p)).filter
            fun i => (st.1.value i).isSome).foldl insertTouched st.2) := by
  induction l with
  | nil => intro st; rfl
  | cons p l ih =>
    intro st
    rw [List.foldl_cons, List.filter_cons]
    by_cases h : normSq p ≤ 100 * 100
    · rw [if_pos (by simpa using h), List.map_cons, List.filter_cons]
      have hstep1 : (surroundStep r pose st p).1 = st.1 := surroundStep_fst r pose st p
      cases hv : st.1.value (getCellIndex r (pose p)) with
      | none =>
        rw [if_neg (by simp [hv])]
        have hstep : surroundStep r pose st p = st := by
          simp only [surroundStep]
          rw [if_neg (by exact not_lt.mpr h), hv]
        rw [hstep]
        exact ih st
      | some c =>
        rw [if_pos (by simp [hv])]
        have hstep : surroundStep r pose st p
            = (st.1, insertTouched st.2 (getCellIndex r (pose p))) := by
          simp only [surroundStep]
          rw [if_neg (by exact not_lt.mpr h), hv]
        rw [hstep, ih (st.1, insertTouched st.2 (getCellIndex r (pose p))),
          List.foldl_cons]
    · rw [if_neg (by simpa using h), surroundStep_far (by exact lt_of_not_ge h)]
      exact ih st

/-- The surround fold leaves the grid untouched. -/
theorem surroundFold_fst (hg : HybridGrid) (scan : List Point) (pose : Point → Point) :
    (surroundFold hg scan pose).1 = hg.grid :=
  surroundLoop_fst hg.resolution pose scan (hg.grid, [])

/-- C6: in `GetSurroundedCloud` a scan point is considered exactly when
the norm of the original, un-transformed point is at most 100 meters
(squared comparison, exact over the rationals); every retained point's
lookup is the voxel of the pose-transformed point; points beyond the
radius are ignored entirely; and the output is the concatenation of the
touched cells' clouds. -/
theorem c6_radius_and_lookup (hg : HybridGrid) (scan : List Point)
    (pose : Point → Point) :
    getSurroundedCloudS hg scan pose
      = getSurroundedCloudS hg (scan.filter fun p => decide (normSq p ≤ 100 * 100)) pose
    ∧ surroundTouched hg scan pose
      = ((((scan.filter fun p => decide (normSq p ≤ 100 * 100)).map
            fun p => getCellIndex hg.resolution (pose p)).filter
          fun i => (hg.grid.value i).isSome).foldl insertTouched [])
    ∧ (getSurroundedCloudS hg scan pose).2
      = (surroundTouched hg scan pose).foldl
          (fun acc idx => acc ++ ((hg.grid.value idx).getD [])) [] := by
  refine ⟨?_, ?_, ?_⟩
  · unfold getSurroundedCloudS surroundFold
    rw [surroundLoop_filter hg.resolution pose scan (hg.grid, [])]
  · unfold surroundTouched surroundFold
    rw [surroundLoop_snd hg.resolution pose scan (hg.grid, [])]
  · simp only [getSurroundedCloudS, surroundTouched]
    rw [surroundFold_fst hg scan pose]

/-- C7: `GetSurroundedCloud` never modifies the grid — the state after the
call equals the state before (bit width, allocated sub-grids and every
cell value, all captured by equality of the grid) — and out-of-range
lookups return the null default without any growth. -/
theorem c7_read_only (hg : HybridGrid) (scan : List Point) (pose : Point → Point) :
    (getSurroundedCloudS hg scan pose).1 = hg
    ∧ (∀ idx : Idx3, ¬ hg.grid.inRange idx → hg.grid.value idx = none) := by
  constructor
  · show (⟨hg.resolution, (surroundFold hg scan pose).1⟩ : HybridGrid) = hg
    rw [surroundFold_fst hg scan pose]
  · exact fun idx h => DynamicGrid.not_inRange_value hg.grid idx h

/-- C8 counterexample: a null scan handle is dereferenced by both entry
points (`scan->empty()` and the range-for), which is the modelled crash
`none`, not the silent return the claim states. -/
theorem c8_counterexample :
    insertScanOpt (HybridGrid.mk0 1) none (fun c => c) = none
    ∧ insertScanOpt (HybridGrid.mk0 1) none (fun c => c) ≠ some (HybridGrid.mk0 1)
    ∧ getSurroundedCloudOpt (HybridGrid.mk0 1) none (fun p => p) = none :=
  ⟨rfl, fun h => Option.noConfusion h, rfl⟩

/-- C8 as amended: an empty scan is not an error — `InsertScan` returns
silently with the grid unchanged and the filter not invoked (the result
is the same for every filter), and `GetSurroundedCloud` returns the empty
cloud — but a null scan handle is dereferenced unconditionally (undefined
behavior modelled as the crash `none`), not silently handled. -/
theorem c8_empty_scan_null_scan :
    (∀ (hg : HybridGrid) (filt : Cloud → Cloud), insertScan hg [] filt = some hg)
    ∧ (∀ (hg : HybridGrid) (pose : Point → Point),
        getSurroundedCloudS hg [] pose = (hg, []))
    ∧ (∀ (hg : HybridGrid) (filt : Cloud → Cloud), insertScanOpt hg none filt = none)
    ∧ (∀ (hg : HybridGrid) (pose : Point → Point),
        getSurroundedCloudOpt hg none pose = none) := by
  refine ⟨fun hg filt => rfl, fun hg pose => ?_, fun hg filt => rfl, fun hg pose => rfl⟩
  show ((⟨hg.resolution, hg.grid⟩ : HybridGrid), ([] : Cloud)) = (hg, [])
  rfl

/-- A cell with a non-null cloud handle is addressable (out-of-range reads
return the null default). -/
theorem isSome_inRange (g : DynamicGrid CellV) (i : Idx3)
    (h : (g.value i).isSome = true) : g.inRange i := by
  by_contra hno
  rw [DynamicGrid.not_inRange_value g i hno] at h
  exact absurd (show (none : CellV).isSome = true from h) (by simp)

/-- Phase 1 of `InsertScan` preserves the bit-width lower bound and never
returns an allocated cell to the null default. -/
theorem insertPhase1_spec (r : ℚ) (scan : List Point) :
    ∀ (g g' : DynamicGrid CellV), 1 ≤ g.bits → insertPhase1 r g scan = some g' →
      1 ≤ g'.bits ∧ ∀ j, (g.value j).isSome = true → (g'.value j).isSome = true := by
  induction scan with
  | nil =>
    intro g g' hb h
    have h' : some g = some g' := h
    have := Option.some.inj h'
    subst this
    exact ⟨hb, fun j hj => hj⟩
  | cons p l ih =>
    intro g g' hb h
    simp only [insertPhase1, List.foldlM_cons] at h
    cases hw : g.write (getCellIndex r p)
        (some ((g.value (getCellIndex r p)).getD [] ++ [p])) with
    | none => rw [hw] at h; simp at h
    | some g1 =>
      rw [hw] at h
      have h' : insertPhase1 r g1 l = some g' := h
      obtain ⟨w1, w2, w3, w4, w5⟩ := DynamicGrid.write_spec hw
      obtain ⟨hb', hpres⟩ := ih g1 g' (w4 hb) h'
      refine ⟨hb', fun j hj => hpres j ?_⟩
      by_cases he : j = getCellIndex r p
      · subst he
        rw [w2]
        rfl
      · rw [w3 hb j he]
        exact hj

/-- The generic loop of phase 2 only accumulates cells whose cloud handle
is non-null. -/
theorem insertPhase2_loop (r : ℚ) (g : DynamicGrid CellV) (l : List Point) :
    ∀ t : List Idx3, (∀ j ∈ t, (g.value j).isSome = true) →
      ∀ j ∈ l.foldl (fun t p =>
          match g.value (getCellIndex r p) with
          | none => t
          | some _ => insertTouched t (getCellIndex r p)) t,
        (g.value j).isSome = true := by
  induction l with
  | nil => intro t ht j hj; exact ht j hj
  | cons p l ih =>
    intro t ht j hj
    rw [List.foldl_cons] at hj
    refine ih _ ?_ j hj
    cases hv : g.value (getCellIndex r p) with
    | none => exact ht
    | some c =>
      intro j' hj'
      rcases mem_insertTouched.mp hj' with hm | rfl
      · exact ht j' hm
      · rw [hv]; rfl

/-- Every cell in the phase-2 touched set has a non-null cloud handle. -/
theorem insertPhase2_isSome (r : ℚ) (g : DynamicGrid CellV) (scan : List Point) :
    ∀ i ∈ insertPhase2 r g scan, (g.value i).isSome = true :=
  insertPhase2_loop r g scan [] (fun j hj => absurd hj (List.not_mem_nil j))

/-- Phase 3 of `InsertScan` (in-place filtering of touched clouds) never
returns an allocated cell to the null default. -/
theorem insertPhase3_spec (filt : Cloud → Cloud) :
    ∀ (touched : List Idx3) (g : DynamicGrid CellV),
      (∀ i ∈ touched, (g.value i).isSome = true) →
      ∀ j, (g.value j).isSome = true →
        ((insertPhase3 g touched filt).value j).isSome = true := by
  intro touched
  induction touched with
  | nil => intro g _ j hj; exact hj
  | cons i rest ih =>
    intro g hts j hj
    have hir : g.inRange i := isSome_inRange g i (hts i (List.mem_cons_self i rest))
    have hstep : insertPhase3 g (i :: rest) filt
        = insertPhase3 (g.gset i (some (filt ((g.value i).getD [])))) rest filt := rfl
    rw [hstep]
    refine ih _ ?_ j ?_
    · intro i' hi'
      by_cases he : i' = i
      · subst he
        rw [DynamicGrid.gset_value_same g _ hir]
        rfl
      · rw [DynamicGrid.gset_value_other g _ hir he]
        exact hts i' (List.mem_cons_of_mem i hi')
    · by_cases he : j = i
      · subst he
        rw [DynamicGrid.gset_value_same g _ hir]
        rfl
      · rw [DynamicGrid.gset_value_other g _ hir he]
        exact hj

/-- Membership after folding touched-set insertions. -/
theorem mem_foldl_insertTouched (l : List Idx3) :
    ∀ (acc : List Idx3) (j : Idx3),
      j ∈ l.foldl insertTouched acc ↔ j ∈ acc ∨ j ∈ l := by
  induction l with
  | nil => intro acc j; simp
  | cons i l ih =>
    intro acc j
    rw [List.foldl_cons, ih (insertTouched acc i) j, mem_insertTouched, List.mem_cons]
    tauto

/-- C10: the emptiness test everywhere is nullness of the cloud handle,
not emptiness of the cloud.  Once a cell's handle is allocated no
operation returns it to the default: `InsertScan` preserves non-nullness
through all three phases (the filter can only replace the cloud, not the
handle), iteration still yields a cell whose cloud was filtered down to
zero points, and `GetSurroundedCloud` still inserts such a cell into its
touched-cloud set. -/
theorem c10_allocated_cell_persists (hg : HybridGrid) (scan : List Point)
    (filt : Cloud → Cloud) (hg' : HybridGrid) (j : Idx3) (hb : 1 ≤ hg.grid.bits)
    (h : insertScan hg scan filt = some hg') (hj : (hg.grid.value j).isSome = true) :
    (hg'.grid.value j).isSome = true
    ∧ (∀ (G : DynamicGrid CellV) (idx : Idx3) (c : Cloud), 1 ≤ G.bits →
        G.value idx = some c → (idx, some c) ∈ G.iter)
    ∧ (∀ (hg2 : HybridGrid) (scan2 : List Point) (pose : Point → Point) (idx : Idx3),
        idx ∈ surroundTouched hg2 scan2 pose
          ↔ (∃ p ∈ scan2, normSq p ≤ 100 * 100
              ∧ getCellIndex hg2.resolution (pose p) = idx)
            ∧ (hg2.grid.value idx).isSome = true) := by
  refine ⟨?_, ?_, ?_⟩
  · simp only [insertScan] at h
    by_cases hemp : scan.isEmpty
    · rw [if_pos hemp] at h
      have := Option.some.inj h
      subst this
      exact hj
    · rw [if_neg hemp] at h
      cases hp1 : insertPhase1 hg.resolution hg.grid scan with
      | none =>
        rw [hp1] at h
        exact Option.noConfusion (show (none : Option HybridGrid) = some hg' from h)
      | some g1 =>
        rw [hp1] at h
        have h' : some (⟨hg.resolution,
            insertPhase3 g1 (insertPhase2 hg.resolution g1 scan) filt⟩ : HybridGrid)
            = some hg' := h
        have heq := Option.some.inj h'
        subst heq
        obtain ⟨hb1, hpres⟩ := insertPhase1_spec hg.resolution scan hg.grid g1 hb hp1
        exact insertPhase3_spec filt (insertPhase2 hg.resolution g1 scan) g1
          (insertPhase2_isSome hg.resolution g1 scan) j (hpres j hj)
  · intro G idx c hbG hv
    exact (DynamicGrid.mem_iter_iff G hbG idx (some c)).mpr
      ⟨hv, fun hd => Option.noConfusion (show some c = none from hd)⟩
  · intro hg2 scan2 pose idx
    have hsnd := surroundLoop_snd hg2.resolution pose scan2 (hg2.grid, [])
    show idx ∈ (surroundFold hg2 scan2 pose).2 ↔ _
    unfold surroundFold
    rw [hsnd, mem_foldl_insertTouched]
    simp only [List.not_mem_nil, false_or, List.mem_filter, List.mem_map,
      decide_eq_true_eq]
    constructor
    · rintro ⟨⟨p, ⟨hps, hpn⟩, hpi⟩, hsome⟩
      exact ⟨⟨p, hps, hpn, hpi⟩, hsome⟩
    · rintro ⟨⟨p, hps, hpn, hpi⟩, hsome⟩
      exact ⟨⟨p, ⟨hps, hpn⟩, hpi⟩, hsome⟩

/-- Witness for C10 on a grid holding one allocated cell with an empty
cloud. -/
theorem c10_allocated_cell_persists_witness :
    (1 ≤ (⟨1, (DynamicGrid.init CellV).gset ⟨0, 0, 0⟩ (some [])⟩
        : HybridGrid).grid.bits
      ∧ insertScan ⟨1, (DynamicGrid.init CellV).gset ⟨0, 0, 0⟩ (some [])⟩ []
          (fun c => c)
          = some ⟨1, (DynamicGrid.init CellV).gset ⟨0, 0, 0⟩ (some [])⟩
      ∧ (((⟨1, (DynamicGrid.init CellV).gset ⟨0, 0, 0⟩ (some [])⟩
          : HybridGrid)).grid.value ⟨0, 0, 0⟩).isSome = true)
    ∧ (((⟨1, (DynamicGrid.init CellV).gset ⟨0, 0, 0⟩ (some [])⟩
          : HybridGrid)).grid.value ⟨0, 0, 0⟩).isSome = true
    ∧ (∀ (G : DynamicGrid CellV) (idx : Idx3) (c : Cloud), 1 ≤ G.bits →
        G.value idx = some c → (idx, some c) ∈ G.iter)
    ∧ (∀ (hg2 : HybridGrid) (scan2 : List Point) (pose : Point → Point) (idx : Idx3),
        idx ∈ surroundTouched hg2 scan2 pose
          ↔ (∃ p ∈ scan2, normSq p ≤ 100 * 100
              ∧ getCellIndex hg2.resolution (pose p) = idx)
            ∧ (hg2.grid.value idx).isSome = true) := by
  have hconc := c10_allocated_cell_persists
    ⟨1, (DynamicGrid.init CellV).gset ⟨0, 0, 0⟩ (some [])⟩ [] (fun c => c)
    ⟨1, (DynamicGrid.init CellV).gset ⟨0, 0, 0⟩ (some [])⟩ ⟨0, 0, 0⟩
    (by decide) rfl (by decide)
  exact ⟨⟨by decide, rfl, by decide⟩, hconc.1, hconc.2.1, hconc.2.2⟩

/-- Witness for C7 at concrete inputs. -/
theorem c7_read_only_witness :
    (getSurroundedCloudS (HybridGrid.mk0 1) [] (fun p => p)).1 = HybridGrid.mk0 1
    ∧ (∀ idx : Idx3, ¬ (HybridGrid.mk0 1).grid.inRange idx →
        (HybridGrid.mk0 1).grid.value idx = none) :=
  c7_read_only (HybridGrid.mk0 1) [] (fun p => p)

/-- Witness for the amended C5 at the concrete tie point. -/
theorem c5_rounding_semantics_witness :
    RoundsNearestTiesAway ((getCellIndex 1 ⟨1 / 2, 0, 0⟩).x)
      ((⟨1 / 2, 0, 0⟩ : Point).px / 1)
    ∧ RoundsNearestTiesAway ((getCellIndex 1 ⟨1 / 2, 0, 0⟩).y)
      ((⟨1 / 2, 0, 0⟩ : Point).py / 1)
    ∧ RoundsNearestTiesAway ((getCellIndex 1 ⟨1 / 2, 0, 0⟩).z)
      ((⟨1 / 2, 0, 0⟩ : Point).pz / 1) :=
  c5_rounding_semantics 1 ⟨1 / 2, 0, 0⟩
